import Mathlib

/-!
Memory-management core of the teaching kernel

A shallow embedding of `cont_frame_pool.C` (contiguous frame allocator),
`vm_pool.C` (virtual-memory pool) and `page_table.C` (two-level page table),
followed by theorems about them.

Conventions of the embedding

* The kernel targets 32-bit x86 (two-level page tables with 1024 four-byte
  entries, `1023 << 22`, `0x80000000` in `cr0`), so `unsigned long` and
  `unsigned int` are 32 bits wide.  Values are natural numbers and every
  addition, subtraction and multiplication that the source performs is reduced
  with `u32`.
* `managementHead` is a `char*` into raw memory.  The bytes it designates are a
  function from the byte offset (relative to `managementHead`) to the byte
  value; offsets beyond the bitmap proper are ordinary memory and can be read
  and written.  Every allocator is given its own storage: the bitmaps of
  distinct allocators are taken not to alias.
* Loops with a counter are structural recursions on the number of iterations
  left; the unbounded `while` loop of `find_free_pages` takes fuel.
* The page-table code reads and writes 32-bit words through addresses; memory
  is a function from the address dereferenced to the word found there.
* Console output is not modelled.
-/

/-! ## Machine arithmetic -/

/-- Reduction of a natural number to an `unsigned long` / `unsigned int` (32 bits). -/
def u32 (x : Nat) : Nat := x % 4294967296

/-- Wrapping subtraction `a - b` of two 32-bit values. -/
def sub32 (a b : Nat) : Nat := u32 (a + 4294967296 - b)

/-! ## cont_frame_pool.C -/

/-- State code of a free frame: `#define FREE 0`. -/
def FREE : Nat := 0
/-- State code of a frame inside an allocated run: `#define ALLOCATED 1`. -/
def ALLOCATED : Nat := 1
/-- State code of the first frame of an allocated run: `#define HEAD_OF_SEQUENCE 3`. -/
def HEAD_OF_SEQUENCE : Nat := 3
/-- State code of a reserved frame: `#define OFF_LIMITS 2`. -/
def OFF_LIMITS : Nat := 2

/-- Modelled from the spec: `FRAME_SIZE` is declared in `cont_frame_pool.H`, which is not
among the sources; the page size is 4096 bytes. -/
def FRAME_SIZE : Nat := 4096

/-- The function `char changeTwoBits(char originalByte, char twoBits, unsigned int offset)`.
Bytes are their bit patterns `0..255`; `~(3 << offset)` truncated to a `char` is the
8-bit complement of the low byte of `3 << offset`. -/
def changeTwoBits (originalByte twoBits offset : Nat) : Nat :=
  let clearMask := 255 ^^^ ((3 <<< offset) % 256)
  let originalByte := originalByte &&& clearMask
  let setMask := (twoBits <<< offset) % 256
  originalByte ||| setMask

/-- One allocator object: `base_frame_num`, `num_frames` and the memory `managementHead`
points to.  The `next` link is the position in the registry list. -/
structure ContFramePool where
  base_frame_num : Nat
  num_frames : Nat
  managementHead : Nat → Nat

/-- The assignment `managementHead[index] = value`. -/
def storeByte (mem : Nat → Nat) (index value : Nat) : Nat → Nat :=
  fun a => if a = index then value else mem a

/-- The expression `(managementHead[i >> 2] >> ((i & 3) << 1)) & 3`: the two state bits of
the slot with relative index `i`. -/
def readState (mem : Nat → Nat) (i : Nat) : Nat :=
  let index := i >>> 2
  let bitshift := (i &&& 3) <<< 1
  (mem index >>> bitshift) &&& 3

/-- The statement `managementHead[index] = changeTwoBits(managementHead[index], code, bitshift)`
with `index = i >> 2` and `bitshift = (i & 3) << 1`. -/
def writeState (mem : Nat → Nat) (i code : Nat) : Nat → Nat :=
  let index := i >>> 2
  let bitshift := (i &&& 3) <<< 1
  storeByte mem index (changeTwoBits (mem index) code bitshift)

namespace ContFramePool

/-- State of the frame with relative index `i` (absolute frame `base_frame_num + i`). -/
def frameState (p : ContFramePool) (i : Nat) : Nat := readState p.managementHead i

/-- The function `ContFramePool::needed_info_frames(_n_frames)`. -/
def needed_info_frames (_n_frames : Nat) : Nat :=
  let rem := _n_frames % (4 * FRAME_SIZE)
  let quo := _n_frames / (4 * FRAME_SIZE)
  u32 (quo + (if rem ≠ 0 then 1 else 0))

/-- The loop of `mark_inaccessible`: `count` iterations left, loop variable `i`. -/
def markLoop (firstCode afterCode true_base : Nat) : Nat → Nat → (Nat → Nat) → (Nat → Nat)
  | 0, _, mem => mem
  | count + 1, i, mem =>
      markLoop firstCode afterCode true_base count (i + 1)
        (if i = true_base then writeState mem i firstCode else writeState mem i afterCode)

/-- The method `ContFramePool::mark_inaccessible(_base_frame_no, _n_frames, offLimits)`.  The loop
`for (i = true_base; i < true_base + _n_frames; ++i)` runs
`(true_base + _n_frames) - true_base` times (none when the bound wraps below `true_base`). -/
def mark_inaccessible (p : ContFramePool) (_base_frame_no _n_frames : Nat) (offLimits : Bool) :
    ContFramePool :=
  let firstCode := if offLimits then OFF_LIMITS else HEAD_OF_SEQUENCE
  let afterCode := if offLimits then OFF_LIMITS else ALLOCATED
  let true_base := sub32 _base_frame_no p.base_frame_num
  let count := u32 (true_base + _n_frames) - true_base
  { p with managementHead := markLoop firstCode afterCode true_base count true_base p.managementHead }

/-- The scanning loop of `get_frames`: `count` iterations left, loop variable `i`, locals
`consecutive_frames` and `block_start`.  `some block_start` when the loop reaches the
`return` inside it, `none` when it runs to the end. -/
def scanLoop (mem : Nat → Nat) (_n_frames : Nat) : Nat → Nat → Nat → Nat → Option Nat
  | 0, _, _, _ => none
  | count + 1, i, consecutive_frames, block_start =>
      let mask := readState mem i
      let block_start :=
        if mask = FREE then (if consecutive_frames = 0 then i else block_start) else block_start
      let consecutive_frames := if mask = FREE then consecutive_frames + 1 else 0
      if consecutive_frames ≥ _n_frames then some block_start
      else scanLoop mem _n_frames count (i + 1) consecutive_frames block_start

/-- The method `ContFramePool::get_frames(_n_frames)`: the returned value and the allocator afterwards. -/
def get_frames (p : ContFramePool) (_n_frames : Nat) : Nat × ContFramePool :=
  match scanLoop p.managementHead _n_frames p.num_frames 0 0 0 with
  | some block_start =>
      (u32 (block_start + p.base_frame_num),
       mark_inaccessible p (u32 (block_start + p.base_frame_num)) _n_frames false)
  | none => (0, p)

/-- The second loop of `release_frame`: `count` iterations left, loop variable `i`; it
stops (`break`) at the first slot that does not read `ALLOCATED`. -/
def releaseLoop : Nat → Nat → (Nat → Nat) → (Nat → Nat)
  | 0, _, mem => mem
  | count + 1, i, mem =>
      if readState mem i = ALLOCATED then releaseLoop count (i + 1) (writeState mem i FREE)
      else mem

/-- The method `ContFramePool::release_frame(_first_frame_no)`.  The loop
`for (i = true_base; i < base_frame_num + num_frames; ++i)` compares the relative index
`i` with the absolute bound `base_frame_num + num_frames`. -/
def release_frame (p : ContFramePool) (_first_frame_no : Nat) : ContFramePool :=
  let true_base := sub32 _first_frame_no p.base_frame_num
  if readState p.managementHead true_base = HEAD_OF_SEQUENCE then
    let mem := writeState p.managementHead true_base ALLOCATED
    let count := u32 (p.base_frame_num + p.num_frames) - true_base
    { p with managementHead := releaseLoop count true_base mem }
  else p

/-- The method `ContFramePool::addToList`: the registry is the list of allocators reached from `first`
through `next`; the new allocator is linked behind the last one. -/
def addToList : List ContFramePool → ContFramePool → List ContFramePool
  | [], p => [p]
  | q :: rest, p => q :: addToList rest p

/-- The function `ContFramePool::release_frames(_first_frame_no)` (static): walks the registry from
`first` and calls `release_frame` on the first allocator whose range test succeeds. -/
def release_frames : List ContFramePool → Nat → List ContFramePool
  | [], _ => []
  | q :: rest, _first_frame_no =>
      if _first_frame_no ≥ q.base_frame_num ∧
          _first_frame_no < u32 (q.base_frame_num + q.num_frames) then
        release_frame q _first_frame_no :: rest
      else q :: release_frames rest _first_frame_no

/-- The loop `for (i = 0; i < (num_frames >> 2); ++i) managementHead[i] = 0;` of the
constructor: `count` iterations left, loop variable `i`. -/
def zeroLoop : Nat → Nat → (Nat → Nat) → (Nat → Nat)
  | 0, _, mem => mem
  | count + 1, i, mem => zeroLoop count (i + 1) (storeByte mem i 0)

/-- The constructor `ContFramePool::ContFramePool(_base_frame_no, _nframes, _info_frame_no,
_n_info_frames)` up to `addToList`.  `storage` is the content, before the call, of the
memory `managementHead` is set to (`_info_frame_no * FRAME_SIZE`, or
`_base_frame_no * FRAME_SIZE` when `_info_frame_no` is 0). -/
def init (_base_frame_no _nframes _info_frame_no _n_info_frames : Nat) (storage : Nat → Nat) :
    ContFramePool :=
  let framesNeededToManage := needed_info_frames _nframes
  let p : ContFramePool :=
    { base_frame_num := _base_frame_no
      num_frames := _nframes
      managementHead := zeroLoop (_nframes >>> 2) 0 storage }
  if _info_frame_no = 0 then mark_inaccessible p p.base_frame_num framesNeededToManage false
  else p

/-- The whole constructor: the new allocator is appended to the registry. -/
def create (registry : List ContFramePool)
    (_base_frame_no _nframes _info_frame_no _n_info_frames : Nat) (storage : Nat → Nat) :
    List ContFramePool :=
  addToList registry (init _base_frame_no _nframes _info_frame_no _n_info_frames storage)

/-- The managed range holds 32-bit frame numbers: `base_frame_num + num_frames` does not
overflow an `unsigned long`. -/
def wf (p : ContFramePool) : Prop := p.base_frame_num + p.num_frames < 4294967296

/-- Frames `[s, s + n)` (relative indices) are all `FREE`. -/
def freeRun (p : ContFramePool) (s n : Nat) : Prop :=
  ∀ j, j < n → p.frameState (s + j) = FREE

/-- The managed range contains a run of `n` consecutive `FREE` frames. -/
def hasFreeRun (p : ContFramePool) (n : Nat) : Prop :=
  ∃ s, s + n ≤ p.num_frames ∧ p.freeRun s n

/-- The absolute frame number `x` lies in `[base_frame_num, base_frame_num + num_frames)`. -/
def inRange (p : ContFramePool) (x : Nat) : Prop :=
  p.base_frame_num ≤ x ∧ x < p.base_frame_num + p.num_frames

/-- The run invariant of the data model: an `ALLOCATED` frame is never the first frame of
the range and always follows a `HEAD_OF_SEQUENCE` or an `ALLOCATED` frame. -/
def runInvariant (p : ContFramePool) : Prop :=
  ∀ i, i < p.num_frames → p.frameState i = ALLOCATED →
    0 < i ∧ (p.frameState (i - 1) = HEAD_OF_SEQUENCE ∨ p.frameState (i - 1) = ALLOCATED)

/-- The allocator `p` after the frames `[s, s + n)` (relative indices) have been marked as
one allocated run: what `mark_inaccessible p (base_frame_num + s) n false` leaves. -/
def marked (p : ContFramePool) (s n : Nat) : ContFramePool :=
  { p with managementHead := markLoop HEAD_OF_SEQUENCE ALLOCATED s n s p.managementHead }

instance (p : ContFramePool) : Decidable p.wf := by
  unfold wf; infer_instance

instance (p : ContFramePool) (x : Nat) : Decidable (p.inRange x) := by
  unfold inRange; infer_instance

/-- A small allocator over frames 512..519 with external bookkeeping, constructed over
storage that held `0xFF` bytes, after one `get_frames 2`: frames 512 and 513 form an
allocated run (byte 0 of the bitmap is `0b00000111`), the other six frames are free. -/
def samplePool : ContFramePool := (get_frames (init 512 8 600 1 (fun _ => 255)) 2).2

/-- A second allocator, over frames 1024..1031 with external bookkeeping, just constructed:
all its frames are free. -/
def otherPool : ContFramePool := init 1024 8 601 1 (fun _ => 255)

/-- Frames below `a` are not `FREE`, frames of `[a, e)` are `FREE` (relative indices). -/
def freeFrom (p : ContFramePool) (a e : Nat) : Prop :=
  (∀ j, j < a → p.frameState j ≠ FREE) ∧ (∀ j, a ≤ j → j < e → p.frameState j = FREE)

/-- An allocator over frames 0..3 with external bookkeeping (info frame 5), just
constructed; the storage held `0xFF` bytes before.  All four frames are free. -/
def zeroBasePool : ContFramePool := init 0 4 5 1 (fun _ => 255)

/-- What `release_frames` keeps of an allocator: its range and its `OFF_LIMITS` frames. -/
def keepsOffLimits (q q' : ContFramePool) : Prop :=
  q'.base_frame_num = q.base_frame_num ∧ q'.num_frames = q.num_frames ∧
    ∀ i, q.frameState i = OFF_LIMITS → q'.frameState i = OFF_LIMITS

end ContFramePool

/-! ## vm_pool.C -/

/-- Modelled from the spec: `PageTable::PAGE_SIZE` is declared in `page_table.H`, which is
not among the sources; the page size is 4096 bytes (`page_table.C` itself multiplies page
numbers by the literal 4096). -/
def PageTable.PAGE_SIZE : Nat := 4096

/-- Modelled from the spec: the descriptor type `VMBlock` is declared in `vm_pool.H`, which
is not among the sources; `vm_pool.C` uses exactly its two `unsigned long` fields
`first_page` and `size` (`allocate` stores the byte size of the region in `size`). -/
structure VMBlock where
  first_page : Nat
  size : Nat
  deriving DecidableEq

/-- One `VMPool` object.  `store` is the memory around `base_address` seen as an array of
`VMBlock`s (`store k` is the block at address `base_address + k * sizeof(VMBlock)`), and
`allocated_list` is the pointer of that name, as a displacement in blocks from
`base_address`; `allocated_list[i]` is `store (allocated_list + i)`.  The links to the frame
pool, the page table and the next pool are not part of the state modelled here. -/
structure VMPool where
  base_address : Nat
  size : Nat
  allocated_list_size : Nat
  allocated_list : Int
  store : Int → VMBlock

namespace VMPool

open PageTable (PAGE_SIZE)

/-- The constructor `VMPool::VMPool(_base_address, _size, _frame_pool, _page_table)`:
`allocated_list_size = 0`, `allocated_list = (VMBlock*)_base_address`; the memory is left as
it is. -/
def init (_base_address _size : Nat) (memory : Int → VMBlock) : VMPool :=
  { base_address := _base_address
    size := _size
    allocated_list_size := 0
    allocated_list := 0
    store := memory }

/-- The element `allocated_list[i]`. -/
def block (p : VMPool) (i : Nat) : VMBlock := p.store (p.allocated_list + (i : Int))

/-- The inner `for` loop of `find_free_pages`: `count` iterations left, loop variable `i`,
current value of `first_free`; the result is `first_free` after the loop. -/
def scanBlocks (p : VMPool) (num_pages : Nat) : Nat → Nat → Nat → Nat
  | 0, _, first_free => first_free
  | count + 1, i, first_free =>
      scanBlocks p num_pages count (i + 1)
        (if u32 (first_free + num_pages) > (p.block i).first_page then
          u32 ((p.block i).first_page + (p.block i).size)
        else first_free)

/-- The `while` loop of `find_free_pages`, with fuel for the evaluations of its condition:
`some first_free` when the condition becomes false, `none` when the fuel runs out. -/
def whileLoop (p : VMPool) (num_pages max_page_no : Nat) : Nat → Nat → Nat → Option Nat
  | 0, _, _ => none
  | fuel + 1, prev_first_free, first_free =>
      if prev_first_free ≠ first_free ∧ first_free < max_page_no then
        whileLoop p num_pages max_page_no fuel first_free
          (scanBlocks p num_pages p.allocated_list_size 0 first_free)
      else some first_free

/-- The method `VMPool::find_free_pages(num_pages)`; `none` only when the fuel runs out. -/
def find_free_pages (fuel : Nat) (p : VMPool) (num_pages : Nat) : Option Nat :=
  let prev_first_free := 0
  let max_page_no := u32 (p.base_address + p.size) / PAGE_SIZE
  let first_free := u32 (p.base_address / PAGE_SIZE + 1)
  match whileLoop p num_pages max_page_no fuel prev_first_free first_free with
  | none => none
  | some first_free => if first_free ≥ max_page_no then some 0 else some first_free

/-- The method `VMPool::allocate(_size)`: the returned address and the pool afterwards; `none` only
when the fuel of `find_free_pages` runs out. -/
def allocate (fuel : Nat) (p : VMPool) (_size : Nat) : Option (Nat × VMPool) :=
  let num_pages := _size / PAGE_SIZE
  match find_free_pages fuel p num_pages with
  | none => none
  | some page_no =>
      if page_no ≠ 0 then
        let slot := p.allocated_list + (p.allocated_list_size : Int)
        let memory : Int → VMBlock :=
          fun k => if k = slot then { first_page := page_no, size := _size } else p.store k
        some (u32 (page_no * PAGE_SIZE),
          { p with store := memory, allocated_list_size := u32 (p.allocated_list_size + 1) })
      else some (u32 (page_no * PAGE_SIZE), p)

/-- The loop of `is_legitimate`: `count` iterations left, loop variable `i`; `true` when a
descriptor passes the test of the loop body. -/
def legitLoop (p : VMPool) (_address : Nat) : Nat → Nat → Bool
  | 0, _ => false
  | count + 1, i =>
      if _address ≥ u32 ((p.block i).first_page * PAGE_SIZE) ∧
          _address < u32 (u32 ((p.block i).first_page + (p.block i).size) * PAGE_SIZE) then
        true
      else legitLoop p _address count (i + 1)

/-- The method `VMPool::is_legitimate(_address)`. -/
def is_legitimate (p : VMPool) (_address : Nat) : Bool :=
  if _address < p.base_address ∨ _address ≥ u32 (p.base_address + p.size) then false
  else if _address / PAGE_SIZE = p.base_address / PAGE_SIZE then true
  else legitLoop p _address p.allocated_list_size 0

/-- The page range `[first_page, first_page + size / PAGE_SIZE)` of a descriptor that holds
a byte size. -/
def pageRangesDisjoint (b c : VMBlock) : Prop :=
  b.first_page + b.size / PAGE_SIZE ≤ c.first_page ∨
    c.first_page + c.size / PAGE_SIZE ≤ b.first_page

/-- Memory in which every block reads `(0, 0)`. -/
def blankMemory : Int → VMBlock := fun _ => { first_page := 0, size := 0 }

/-- A pool of four pages (pages 16..19, page 16 holding the descriptors), just constructed. -/
def smallPool : VMPool := init 65536 16384 blankMemory

/-- A pool of sixteen pages (pages 16..31), just constructed. -/
def midPool : VMPool := init 65536 65536 blankMemory

/-- A pool of 256 MB at 256 MB (pages 65536..131071), just constructed. -/
def largePool : VMPool := init 268435456 268435456 blankMemory

/-- A pool over pages 1..5000 holding two descriptors, stored out of address order: pages
`[4000, 4200)` (819200 bytes) at index 0 and page `[2, 3)` (4096 bytes) at index 1. -/
def unorderedPool : VMPool :=
  { base_address := 4096
    size := 20480000
    allocated_list_size := 2
    allocated_list := 0
    store := fun k =>
      if k = 0 then { first_page := 4000, size := 819200 }
      else if k = 1 then { first_page := 2, size := 4096 }
      else { first_page := 0, size := 0 } }

end VMPool

/-! ## page_table.C -/

namespace PageTable

/-- The state `page_table.C` works on.  `mem` is memory as the code addresses it: the
32-bit word found at the address that is dereferenced (physical addresses in the
constructor, addresses of the self-map window in `free_page` and `handle_fault`); the
translation done by the hardware is not modelled, and the bitmaps of the frame pools lie
outside `mem`.  `pools` is the registry of frame pools (`ContFramePool::first` and the
`next` links); the pointers `kernel_mem_pool` and `process_mem_pool` are positions in that
registry.  `page_directory` and `first_vm_pool` are the fields of the current page table,
the latter as the list of pools reached through `next`. -/
structure State where
  mem : Nat → Nat
  pools : List ContFramePool
  kernel_mem_pool : Nat
  process_mem_pool : Nat
  page_directory : Nat
  first_vm_pool : List VMPool

/-- The assignment `*(unsigned long*)addr = value`. -/
def storeWord (mem : Nat → Nat) (addr value : Nat) : Nat → Nat :=
  fun a => if a = addr then value else mem a

/-- The call `pool->get_frames(n)` through a pointer into the registry: the value returned
and the registry afterwards.  A pointer that designates no allocator is outside the model
(the call then returns 0 and changes nothing). -/
def callGetFrames (pools : List ContFramePool) (pool n : Nat) : Nat × List ContFramePool :=
  match pools[pool]? with
  | some p => ((ContFramePool.get_frames p n).1, pools.set pool (ContFramePool.get_frames p n).2)
  | none => (0, pools)

/-- The function `PageTable::init_paging` (the shared size is not used by the code modelled). -/
def init_paging (st : State) (_kernel_mem_pool _process_mem_pool : Nat) : State :=
  { st with kernel_mem_pool := _kernel_mem_pool, process_mem_pool := _process_mem_pool }

/-- The loop `for (i = 0; i < 1024; ++i) page_table_page[i] = (i * 4096) | 3;` of the
constructor: `count` iterations left, loop variable `i`. -/
def fillTable (page_table_page : Nat) : Nat → Nat → (Nat → Nat) → (Nat → Nat)
  | 0, _, mem => mem
  | count + 1, i, mem =>
      fillTable page_table_page count (i + 1)
        (storeWord mem (u32 (page_table_page + 4 * i)) (u32 (i * 4096) ||| 3))

/-- The loop `for (i = 1; i < 1024; ++i) page_directory[i] = 2;` of the constructor:
`count` iterations left, loop variable `i`. -/
def fillDirectory (page_directory : Nat) : Nat → Nat → (Nat → Nat) → (Nat → Nat)
  | 0, _, mem => mem
  | count + 1, i, mem =>
      fillDirectory page_directory count (i + 1)
        (storeWord mem (u32 (page_directory + 4 * i)) 2)

/-- The constructor `PageTable::PageTable()`.  It does not assign `first_vm_pool`. -/
def construct (st : State) : State :=
  let r1 := callGetFrames st.pools st.kernel_mem_pool 1
  let directory_frame := r1.1
  let page_directory := u32 (directory_frame * PAGE_SIZE)
  let r2 := callGetFrames r1.2 st.kernel_mem_pool 1
  let page_table_page := u32 (r2.1 * PAGE_SIZE)
  let mem1 := storeWord st.mem (u32 (page_directory + 4 * 0)) (page_table_page ||| 3)
  let mem2 := fillTable page_table_page 1024 0 mem1
  let mem3 := fillDirectory page_directory 1023 1 mem2
  let mem4 := storeWord mem3 (u32 (page_directory + 4 * 1023)) (page_directory ||| 3)
  { st with mem := mem4, pools := r2.2, page_directory := page_directory }

/-- The method `PageTable::register_pool`: the pool is linked behind the last one. -/
def register_pool : List VMPool → VMPool → List VMPool
  | [], pool => [pool]
  | q :: rest, pool => q :: register_pool rest pool

/-- The method `PageTable::free_page(page_no)`; `~1` is `0xFFFFFFFE`.  Reloading `cr3` and the
console output are not modelled. -/
def free_page (st : State) (page_no : Nat) : State :=
  let subpage_no := page_no &&& 0x3ff
  let page_table_no := (page_no >>> 10) &&& 0x3ff
  let pte_addr := (1023 <<< 22) ||| (page_table_no <<< 12) ||| (subpage_no <<< 2)
  let pte := st.mem pte_addr
  let frame_no := pte / PAGE_SIZE
  let pools := ContFramePool.release_frames st.pools frame_no
  { st with mem := storeWord st.mem pte_addr (st.mem pte_addr &&& 4294967294), pools := pools }

/-- How a call of `handle_fault` ends: in the endless loop `for (;;);` after the
segmentation-fault message (`halted`, with the state at that point), or by returning. -/
inductive Outcome where
  | halted (st : State)
  | returned (st : State)

/-- The loop over the registered pools in `handle_fault`: whether some pool, in list order,
answers `is_legitimate(fault_address)` with true. -/
def anyLegitimate : List VMPool → Nat → Bool
  | [], _ => false
  | pool :: rest, fault_address =>
      if pool.is_legitimate fault_address then true else anyLegitimate rest fault_address

/-- The loop `for (i = 0; i < 1024; ++i) *page_addr = 2;` of `handle_fault`, with
`page_addr = (0x3ff << 22) | (page_table_page << 12) | (i << 2)`: `count` iterations left,
loop variable `i`. -/
def clearTable (page_table_page : Nat) : Nat → Nat → (Nat → Nat) → (Nat → Nat)
  | 0, _, mem => mem
  | count + 1, i, mem =>
      clearTable page_table_page count (i + 1)
        (storeWord mem ((0x3ff <<< 22) ||| (page_table_page <<< 12) ||| (i <<< 2)) 2)

/-- The function `PageTable::handle_fault`, with the content of `cr2` as argument. -/
def handle_fault (st : State) (fault_address : Nat) : Outcome :=
  let address_valid := anyLegitimate st.first_vm_pool fault_address
  let address_valid :=
    if (fault_address >>> 22) &&& 0x3ff = 0x3ff then true else address_valid
  if address_valid = false then Outcome.halted st
  else
    let desired_page := (fault_address >>> 12) &&& 0xfffff
    let page_table_page := desired_page >>> 10
    let page := desired_page &&& 0x3ff
    let page_table_page_addr := (0x3ff <<< 22) ||| (0x3ff <<< 12) ||| (page_table_page <<< 2)
    let st1 : State :=
      if st.mem page_table_page_addr &&& 1 = 0 then
        let r := callGetFrames st.pools st.process_mem_pool 1
        let mem1 := storeWord st.mem page_table_page_addr (u32 (r.1 * PAGE_SIZE) ||| 3)
        { st with mem := clearTable page_table_page 1024 0 mem1, pools := r.2 }
      else st
    let r := callGetFrames st1.pools st1.process_mem_pool 1
    let frame := r.1
    let page_addr := (0x3ff <<< 22) ||| (page_table_page <<< 12) ||| (page <<< 2)
    Outcome.returned
      { st1 with mem := storeWord st1.mem page_addr (u32 (frame * PAGE_SIZE) ||| 3), pools := r.2 }

/-- The state `st` with new memory and a new registry of frame pools. -/
def State.update (st : State) (mem : Nat → Nat) (pools : List ContFramePool) : State :=
  { st with mem := mem, pools := pools }

/-- The address at which `free_page` and `handle_fault` find the leaf entry of page
`page_no`: the self-map index 1023 on top, then the index of the table, then the index of
the entry. -/
def leafEntryAddr (page_no : Nat) : Nat :=
  (1023 <<< 22) ||| (((page_no >>> 10) &&& 0x3ff) <<< 12) ||| ((page_no &&& 0x3ff) <<< 2)

/-- The address at which `handle_fault` finds the directory slot `i`. -/
def directorySlotAddr (i : Nat) : Nat :=
  (0x3ff <<< 22) ||| (0x3ff <<< 12) ||| (i <<< 2)

/-- The page number `handle_fault` derives from a fault address. -/
def pageOf (fault_address : Nat) : Nat := (fault_address >>> 12) &&& 0xfffff

/-- The validity test of `handle_fault`: some registered pool finds the address legitimate,
or its top-level index is the self-map index `0x3ff`. -/
def validAddress (st : State) (fault_address : Nat) : Prop :=
  (∃ pool, pool ∈ st.first_vm_pool ∧ pool.is_legitimate fault_address = true) ∨
    (fault_address >>> 22) &&& 0x3ff = 0x3ff

/-- A state with two frame pools (`samplePool`, then `otherPool` as the process pool), one
registered VM pool (`midPool`, pages 16..31), and memory in which the self-map slot
`0xFFFFFFFC` reads `0x1003`, directory slot 0 at `0xFFFFF000` reads `0x2003`, and every
other word reads 2. -/
def sampleState : State :=
  { mem := fun a => if a = 4294967292 then 4099 else if a = 4294963200 then 8195 else 2
    pools := [ContFramePool.samplePool, ContFramePool.otherPool]
    kernel_mem_pool := 0
    process_mem_pool := 1
    page_directory := 4096
    first_vm_pool := [VMPool.midPool] }

end PageTable

/-! ## vm_pool.C: release -/

namespace VMPool

open PageTable (PAGE_SIZE)

/-- The loop of `remove_allocated_at`, `allocated_list[i] = allocated_list[i + 1]`: `count`
iterations left, loop variable `i`; `base` is the pointer `allocated_list`. -/
def shiftLoop (base : Int) : Nat → Nat → (Int → VMBlock) → (Int → VMBlock)
  | 0, _, memory => memory
  | count + 1, i, memory =>
      shiftLoop base count (i + 1)
        (fun k => if k = base + (i : Int) then memory (base + ((i + 1 : Nat) : Int)) else memory k)

/-- The method `VMPool::remove_allocated_at(index)`.  The loop runs while
`i < allocated_list_size - 1`; the last statement is `--allocated_list`, which moves the
pointer one block down and leaves `allocated_list_size` as it is. -/
def remove_allocated_at (p : VMPool) (index : Nat) : VMPool :=
  let count := sub32 p.allocated_list_size 1 - index
  let memory := shiftLoop p.allocated_list count index p.store
  { p with store := memory, allocated_list := p.allocated_list - 1 }

/-- The loop `for (j = page_no; j < allocated_list[i].size; ++j) page_table->free_page(j);`
of `release`: `count` iterations left, loop variable `j`, the page-table state, and the
arguments of the calls of `free_page` made so far, in order. -/
def freeLoop : Nat → Nat → PageTable.State → List Nat → PageTable.State × List Nat
  | 0, _, pt, calls => (pt, calls)
  | count + 1, j, pt, calls => freeLoop count (j + 1) (PageTable.free_page pt j) (calls ++ [j])

/-- The search loop of `release`: `count` iterations left, loop variable `i`.  The result
is the page-table state, the arguments of the calls of `free_page` in order, and the pool. -/
def releaseLoop (p : VMPool) (page_no : Nat) (pt : PageTable.State) :
    Nat → Nat → PageTable.State × List Nat × VMPool
  | 0, _ => (pt, [], p)
  | count + 1, i =>
      if (p.block i).first_page = page_no then
        let r := freeLoop ((p.block i).size - page_no) page_no pt []
        (r.1, r.2, remove_allocated_at p i)
      else releaseLoop p page_no pt count (i + 1)

/-- The method `VMPool::release(_start_address)`: the page-table state afterwards, the
arguments of the calls `page_table->free_page(j)` in order, and the pool afterwards. -/
def release (pt : PageTable.State) (p : VMPool) (_start_address : Nat) :
    PageTable.State × List Nat × VMPool :=
  let page_no := _start_address / PAGE_SIZE
  releaseLoop p page_no pt p.allocated_list_size 0

/-- Memory in which the block just below the pool's base reads `(65537, 8192)` and every
other block reads `(0, 0)`. -/
def staleMemory : Int → VMBlock :=
  fun k => if k = -1 then { first_page := 65537, size := 8192 } else { first_page := 0, size := 0 }

/-- A pool of 256 MB at 256 MB, just constructed over `staleMemory`. -/
def stalePool : VMPool := init 268435456 268435456 staleMemory

/-- The pool `largePool` after one `allocate 4096`. -/
def largePoolOne : VMPool := ((allocate 2 largePool 4096).getD (0, largePool)).2

/-- The pool `largePool` after two calls `allocate 4096`. -/
def largePoolTwo : VMPool := ((allocate 3 largePoolOne 4096).getD (0, largePoolOne)).2

end VMPool

/-! ## Sequences of calls -/

namespace ContFramePool

/-- One call on an allocator: `get_frames`, `mark_inaccessible` with either flag on the
frames `[a, a + m)` of the managed range, or the global `release_frames` with this
allocator the only one registered.  When `guarded` holds, a call of `mark_inaccessible`
with the off-limits flag is admitted only if the frame that follows the range, when it is
a managed frame, is not `ALLOCATED`. -/
inductive Step (guarded : Prop) : ContFramePool → ContFramePool → Prop where
  | get_frames (p : ContFramePool) (n : Nat) : Step guarded p (ContFramePool.get_frames p n).2
  | mark_inaccessible (p : ContFramePool) (a m : Nat) (offLimits : Bool)
      (hrange : a + m ≤ p.num_frames)
      (hguard : guarded → offLimits = true → a + m < p.num_frames →
        p.frameState (a + m) ≠ ALLOCATED) :
      Step guarded p (ContFramePool.mark_inaccessible p (p.base_frame_num + a) m offLimits)
  | release_frames (p q : ContFramePool) (x : Nat)
      (hcall : ContFramePool.release_frames [p] x = [q]) : Step guarded p q

/-- The allocator states reached from `p0` by a sequence of calls. -/
inductive Reachable (guarded : Prop) (p0 : ContFramePool) : ContFramePool → Prop where
  | start : Reachable guarded p0 p0
  | step (p q : ContFramePool) (hp : Reachable guarded p0 p) (hstep : Step guarded p q) :
      Reachable guarded p0 q

/-- An allocator over the four frames 8..11 with external bookkeeping, constructed over
storage whose bytes held `0x55`: byte 0 is zeroed, the bytes behind it still read `0x55`. -/
def tailPool : ContFramePool := init 8 4 600 1 (fun _ => 85)

end ContFramePool

namespace VMPool

/-- A pool of 16 MB at 16 MB (pages 4096..8191), just constructed. -/
def wrapPool : VMPool := init 16777216 16777216 blankMemory

/-- The pool `wrapPool` after `allocate 4294963200`. -/
def wrapPoolOne : VMPool := ((allocate 2 wrapPool 4294963200).getD (0, wrapPool)).2

/-- The pool `wrapPool` after `allocate 4294963200` and `allocate 16777216`. -/
def wrapPoolTwo : VMPool := ((allocate 3 wrapPoolOne 16777216).getD (0, wrapPoolOne)).2

end VMPool

namespace PageTable

/-- The address `page_addr` that `handle_fault` computes for the leaf entry of the faulting
page. -/
def faultEntryAddr (fault_address : Nat) : Nat :=
  let desired_page := (fault_address >>> 12) &&& 0xfffff
  let page_table_page := desired_page >>> 10
  let page := desired_page &&& 0x3ff
  (0x3ff <<< 22) ||| (page_table_page <<< 12) ||| (page <<< 2)

/-- A state like `sampleState` in which directory slot 0 at `0xFFFFF000` reads the
placeholder 2: the table that covers pages 0..1023 is not present. -/
def absentState : State :=
  { mem := fun a => if a = 4294967292 then 4099 else 2
    pools := [ContFramePool.samplePool, ContFramePool.otherPool]
    kernel_mem_pool := 0
    process_mem_pool := 1
    page_directory := 4096
    first_vm_pool := [VMPool.midPool] }

end PageTable

/-! ## Two-bit slots of a byte -/

set_option maxRecDepth 1000000 in
theorem byte_same_small : ∀ b, b < 256 → ∀ k, k < 4 → ∀ v, v < 4 →
    (changeTwoBits b v (k <<< 1) >>> (k <<< 1)) &&& 3 = v := by
  decide

set_option maxRecDepth 1000000 in
theorem byte_other_small : ∀ b, b < 256 → ∀ k, k < 4 → ∀ l, l < 4 → ∀ v, v < 4 → k ≠ l →
    (changeTwoBits b v (k <<< 1) >>> (l <<< 1)) &&& 3 = (b >>> (l <<< 1)) &&& 3 := by
  decide

theorem changeTwoBits_mod (b v o : Nat) :
    changeTwoBits b v o = changeTwoBits (b % 256) v o := by
  unfold changeTwoBits
  have h : ∀ c, c < 256 → b &&& c = (b % 256) &&& c := by
    intro c hc
    have h1 : b % 256 = b &&& 255 := (Nat.and_pow_two_sub_one_eq_mod b 8).symm
    have h2 : 255 &&& c = c := by
      rw [Nat.and_comm]
      have := Nat.and_pow_two_sub_one_eq_mod c 8
      simp at this
      rw [this]; exact Nat.mod_eq_of_lt hc
    rw [h1, Nat.and_assoc, h2]
  have hc : 255 ^^^ ((3 <<< o) % 256) < 256 := by
    have : (3 <<< o) % 256 < 256 := Nat.mod_lt _ (by norm_num)
    exact Nat.xor_lt_two_pow (n := 8) (by norm_num) this
  simp only [h _ hc]

theorem shift_and3_mod (b l : Nat) (hl : l < 4) :
    (b >>> (l <<< 1)) &&& 3 = ((b % 256) >>> (l <<< 1)) &&& 3 := by
  have h3 : ∀ x, x &&& 3 = x % 4 := fun x => Nat.and_pow_two_sub_one_eq_mod x 2
  rw [h3, h3]
  interval_cases l <;> simp [Nat.shiftRight_eq_div_pow, Nat.shiftLeft_eq] <;> omega

theorem and3_lt (i : Nat) : i &&& 3 < 4 := by
  have h3 : i &&& 3 = i % 4 := Nat.and_pow_two_sub_one_eq_mod i 2
  omega

theorem byte_same (b k v : Nat) (hk : k < 4) (hv : v < 4) :
    (changeTwoBits b v (k <<< 1) >>> (k <<< 1)) &&& 3 = v := by
  rw [changeTwoBits_mod]
  exact byte_same_small (b % 256) (Nat.mod_lt _ (by norm_num)) k hk v hv

theorem byte_other (b k l v : Nat) (hk : k < 4) (hl : l < 4) (hv : v < 4) (hkl : k ≠ l) :
    (changeTwoBits b v (k <<< 1) >>> (l <<< 1)) &&& 3 = (b >>> (l <<< 1)) &&& 3 := by
  rw [changeTwoBits_mod, shift_and3_mod b l hl]
  exact byte_other_small (b % 256) (Nat.mod_lt _ (by norm_num)) k hk l hl v hv hkl

/-! ## Reading and writing frame states -/

theorem readState_writeState_same (mem : Nat → Nat) (i v : Nat) (hv : v < 4) :
    readState (writeState mem i v) i = v := by
  simp only [readState, writeState, storeByte, if_true]
  exact byte_same _ _ _ (and3_lt i) hv

theorem readState_writeState_other (mem : Nat → Nat) (i j v : Nat) (hv : v < 4) (hij : i ≠ j) :
    readState (writeState mem i v) j = readState mem j := by
  simp only [readState, writeState, storeByte]
  by_cases hb : j >>> 2 = i >>> 2
  · rw [if_pos hb, hb]
    apply byte_other _ _ _ _ (and3_lt i) (and3_lt j) hv
    intro hk
    apply hij
    have h3 : ∀ x, x &&& 3 = x % 4 := fun x => Nat.and_pow_two_sub_one_eq_mod x 2
    rw [h3, h3] at hk
    simp only [Nat.shiftRight_eq_div_pow] at hb
    omega
  · rw [if_neg hb]

theorem readState_lt (mem : Nat → Nat) (i : Nat) : readState mem i < 4 := by
  unfold readState
  exact and3_lt _

/-! ## The loops of the frame allocator -/

namespace ContFramePool

theorem markLoop_read (fc ac tb : Nat) (hfc : fc < 4) (hac : ac < 4) :
    ∀ count i mem j, readState (markLoop fc ac tb count i mem) j =
      if i ≤ j ∧ j < i + count then (if j = tb then fc else ac) else readState mem j := by
  intro count
  induction count with
  | zero =>
    intro i mem j
    have h0 : ¬ (i ≤ j ∧ j < i + 0) := by omega
    rw [markLoop, if_neg h0]
  | succ count ih =>
    intro i mem j
    rw [markLoop, ih]
    by_cases hj : j = i
    · subst hj
      have h1 : ¬ (j + 1 ≤ j ∧ j < j + 1 + count) := by omega
      have h2 : j ≤ j ∧ j < j + (count + 1) := by omega
      rw [if_neg h1, if_pos h2]
      by_cases ht : j = tb
      · rw [if_pos ht, if_pos ht, readState_writeState_same _ _ _ hfc]
      · rw [if_neg ht, if_neg ht, readState_writeState_same _ _ _ hac]
    · have hij : i ≠ j := fun h => hj h.symm
      have hother : readState (if i = tb then writeState mem i fc else writeState mem i ac) j
          = readState mem j := by
        by_cases ht : i = tb
        · rw [if_pos ht, readState_writeState_other _ _ _ _ hfc hij]
        · rw [if_neg ht, readState_writeState_other _ _ _ _ hac hij]
      rw [hother]
      by_cases hin : i + 1 ≤ j ∧ j < i + 1 + count
      · have h2 : i ≤ j ∧ j < i + (count + 1) := by omega
        rw [if_pos hin, if_pos h2]
      · have h2 : ¬ (i ≤ j ∧ j < i + (count + 1)) := by omega
        rw [if_neg hin, if_neg h2]

theorem scanLoop_spec (mem : Nat → Nat) (n : Nat) (hn : 1 ≤ n) :
    ∀ count i c b, c < n → c ≤ i → (0 < c → b = i - c) →
      (∀ j, i - c ≤ j → j < i → readState mem j = FREE) →
      (∀ s, s < i - c → ¬ (∀ j, j < n → readState mem (s + j) = FREE)) →
      (∀ s, scanLoop mem n count i c b = some s →
        s + n ≤ i + count ∧ (∀ j, j < n → readState mem (s + j) = FREE) ∧
        ∀ t, t < s → ¬ (∀ j, j < n → readState mem (t + j) = FREE)) ∧
      (scanLoop mem n count i c b = none →
        ∀ s, s + n ≤ i + count → ¬ (∀ j, j < n → readState mem (s + j) = FREE)) := by
  intro count
  induction count with
  | zero =>
    intro i c b hc hci _ _ hlow
    refine ⟨fun s h => by simp [scanLoop] at h, fun _ s hs => ?_⟩
    exact hlow s (by omega)
  | succ count ih =>
    intro i c b hc hci hb hblock hlow
    by_cases hfree : readState mem i = FREE
    · have hb' : (if c = 0 then i else b) = i - c := by
        by_cases h0 : c = 0
        · simp [h0]
        · rw [if_neg h0]; exact hb (by omega)
      have hblock' : ∀ j, i - c ≤ j → j < i + 1 → readState mem j = FREE := by
        intro j h1 h2
        by_cases hji : j = i
        · rw [hji]; exact hfree
        · exact hblock j h1 (by omega)
      by_cases hhit : c + 1 ≥ n
      · have hres : scanLoop mem n (count + 1) i c b = some (i - c) := by
          simp only [scanLoop, hfree, if_true, if_pos hhit, hb']
        rw [hres]
        refine ⟨fun s hs => ?_, fun h => by simp at h⟩
        have hs' : s = i - c := by simpa using hs.symm
        subst hs'
        refine ⟨by omega, fun j hj => hblock' _ (by omega) (by omega), hlow⟩
      · have hres : scanLoop mem n (count + 1) i c b
            = scanLoop mem n count (i + 1) (c + 1) (i - c) := by
          simp only [scanLoop, hfree, if_true, if_neg hhit, hb']
        rw [hres]
        have := ih (i + 1) (c + 1) (i - c) (by omega) (by omega) (fun _ => by omega)
          (fun j h1 h2 => hblock' j (by omega) h2)
          (fun s hs => hlow s (by omega))
        have e : i + 1 + count = i + (count + 1) := by omega
        rw [e] at this
        exact this
    · have hres : scanLoop mem n (count + 1) i c b = scanLoop mem n count (i + 1) 0 b := by
        have h0 : ¬ (0 ≥ n) := by omega
        simp only [scanLoop, hfree, if_false, if_neg h0]
      rw [hres]
      have := ih (i + 1) 0 b (by omega) (by omega) (fun h => absurd h (by omega))
        (fun j h1 h2 => absurd h2 (by omega))
        (fun s hs hrun => by
          by_cases hs' : s < i - c
          · exact hlow s hs' hrun
          · have := hrun (i - s) (by omega)
            rw [show s + (i - s) = i by omega] at this
            exact hfree this)
      have e : i + 1 + count = i + (count + 1) := by omega
      rw [e] at this
      exact this

theorem releaseLoop_cases : ∀ count i mem j,
    readState (releaseLoop count i mem) j = readState mem j ∨
      (i ≤ j ∧ j < i + count ∧ readState mem j = ALLOCATED ∧
        readState (releaseLoop count i mem) j = FREE) := by
  intro count
  induction count with
  | zero => intro i mem j; left; rfl
  | succ count ih =>
    intro i mem j
    rw [releaseLoop]
    by_cases ha : readState mem i = ALLOCATED
    · rw [if_pos ha]
      by_cases hj : j = i
      · subst hj
        right
        refine ⟨le_refl _, by omega, ha, ?_⟩
        rcases ih (j + 1) (writeState mem j FREE) j with h | h
        · rw [h]; exact readState_writeState_same _ _ _ (by decide)
        · omega
      · have hij : i ≠ j := fun h => hj h.symm
        have ho := readState_writeState_other mem i j FREE (by decide) hij
        rcases ih (i + 1) (writeState mem i FREE) j with h | h
        · left; rw [h, ho]
        · right
          rw [ho] at h
          exact ⟨by omega, by omega, h.2.2.1, h.2.2.2⟩
    · rw [if_neg ha]; left; rfl

theorem releaseLoop_run : ∀ count i mem m, m ≤ count →
    (∀ j, j < m → readState mem (i + j) = ALLOCATED) →
    ∀ j, j < m → readState (releaseLoop count i mem) (i + j) = FREE := by
  intro count
  induction count with
  | zero => intro i mem m hm _ j hj; omega
  | succ count ih =>
    intro i mem m hm hrun j hj
    have ha : readState mem i = ALLOCATED := by
      have := hrun 0 (by omega)
      simpa using this
    rw [releaseLoop, if_pos ha]
    cases j with
    | zero =>
      rcases releaseLoop_cases count (i + 1) (writeState mem i FREE) (i + 0) with h | h
      · rw [h]; exact readState_writeState_same _ _ _ (by decide)
      · omega
    | succ j =>
      have := ih (i + 1) (writeState mem i FREE) (m - 1) (by omega)
        (fun k hk => by
          rw [readState_writeState_other _ _ _ _ (by decide) (by omega)]
          have := hrun (k + 1) (by omega)
          rw [show i + 1 + k = i + (k + 1) by omega]
          exact this)
        j (by omega)
      rw [show i + (j + 1) = i + 1 + j by omega]
      exact this

theorem releaseLoop_stop : ∀ count i mem m,
    (∀ j, j < m → readState mem (i + j) = ALLOCATED) →
    readState mem (i + m) ≠ ALLOCATED →
    ∀ j, i + m ≤ j → readState (releaseLoop count i mem) j = readState mem j := by
  intro count
  induction count with
  | zero => intro i mem m _ _ j _; rfl
  | succ count ih =>
    intro i mem m hrun hstop j hj
    rw [releaseLoop]
    by_cases ha : readState mem i = ALLOCATED
    · rw [if_pos ha]
      cases m with
      | zero => exact absurd ha (by simpa using hstop)
      | succ m =>
        have ho : ∀ k, i + 1 ≤ k → readState (writeState mem i FREE) k = readState mem k :=
          fun k hk => readState_writeState_other _ _ _ _ (by decide) (by omega)
        have := ih (i + 1) (writeState mem i FREE) m
          (fun k hk => by
            rw [ho _ (by omega), show i + 1 + k = i + (k + 1) by omega]
            exact hrun (k + 1) (by omega))
          (by
            rw [ho _ (by omega), show i + 1 + m = i + (m + 1) by omega]
            exact hstop)
          j (by omega)
        rw [this, ho _ (by omega)]
    · rw [if_neg ha]

end ContFramePool

/-! ## Allocation and release of a run -/

theorem u32_of_lt (x : Nat) (h : x < 4294967296) : u32 x = x := Nat.mod_eq_of_lt h

theorem sub32_add_left (s b : Nat) (h : s + b < 4294967296) : sub32 (s + b) b = s := by
  unfold sub32 u32
  rw [show s + b + 4294967296 - b = s + 4294967296 by omega]
  omega

namespace ContFramePool

theorem frameState_marked (p : ContFramePool) (s n j : Nat) :
    frameState (marked p s n) j =
      if s ≤ j ∧ j < s + n then (if j = s then HEAD_OF_SEQUENCE else ALLOCATED)
      else p.frameState j := by
  unfold frameState marked
  exact markLoop_read _ _ _ (by decide) (by decide) _ _ _ _

theorem get_frames_success (p : ContFramePool) (n : Nat) (hwf : p.wf) (hn : 1 ≤ n)
    (hrun : p.hasFreeRun n) :
    ∃ s, s + n ≤ p.num_frames ∧ p.freeRun s n ∧ (∀ t, t < s → ¬ p.freeRun t n) ∧
      get_frames p n = (p.base_frame_num + s, marked p s n) := by
  have hspec := scanLoop_spec p.managementHead n hn p.num_frames 0 0 0 (by omega) (le_refl _)
    (fun h => absurd h (by omega)) (fun j _ h => absurd h (by omega))
    (fun s h => absurd h (by omega))
  unfold wf at hwf
  cases hscan : scanLoop p.managementHead n p.num_frames 0 0 0 with
  | none =>
    obtain ⟨s, hs, hfree⟩ := hrun
    exact absurd hfree (hspec.2 hscan s (by omega))
  | some s =>
    obtain ⟨h1, h2, h3⟩ := hspec.1 s hscan
    refine ⟨s, by omega, h2, h3, ?_⟩
    have e1 : u32 (s + p.base_frame_num) = s + p.base_frame_num := u32_of_lt _ (by omega)
    have e2 : sub32 (s + p.base_frame_num) p.base_frame_num = s := sub32_add_left _ _ (by omega)
    have e3 : u32 (s + n) = s + n := u32_of_lt _ (by omega)
    simp only [get_frames, hscan, mark_inaccessible, marked, e1, e2, e3, Nat.add_sub_cancel_left,
      Bool.false_eq_true, if_false, Nat.add_comm p.base_frame_num s]

theorem get_frames_fail (p : ContFramePool) (n : Nat) (hn : 1 ≤ n) (hrun : ¬ p.hasFreeRun n) :
    get_frames p n = (0, p) := by
  have hspec := scanLoop_spec p.managementHead n hn p.num_frames 0 0 0 (by omega) (le_refl _)
    (fun h => absurd h (by omega)) (fun j _ h => absurd h (by omega))
    (fun s h => absurd h (by omega))
  cases hscan : scanLoop p.managementHead n p.num_frames 0 0 0 with
  | none => simp only [get_frames, hscan]
  | some s =>
    obtain ⟨h1, h2, _⟩ := hspec.1 s hscan
    exact absurd ⟨s, by omega, h2⟩ hrun

theorem inRange_iff_test (q : ContFramePool) (x : Nat) (hwf : q.wf) :
    (x ≥ q.base_frame_num ∧ x < u32 (q.base_frame_num + q.num_frames)) ↔ q.inRange x := by
  unfold wf at hwf
  unfold inRange
  rw [u32_of_lt _ hwf]

theorem release_frames_first (pre : List ContFramePool) (q : ContFramePool)
    (post : List ContFramePool) (x : Nat)
    (hpre : ∀ r, r ∈ pre → r.wf ∧ ¬ r.inRange x) (hq : q.wf) (hx : q.inRange x) :
    release_frames (pre ++ q :: post) x = pre ++ release_frame q x :: post := by
  induction pre with
  | nil =>
    have := (inRange_iff_test q x hq).2 hx
    simp only [List.nil_append, release_frames, if_pos this]
  | cons r pre ih =>
    have hr := hpre r (List.mem_cons_self _ _)
    have hno : ¬ (x ≥ r.base_frame_num ∧ x < u32 (r.base_frame_num + r.num_frames)) :=
      fun h => hr.2 ((inRange_iff_test r x hr.1).1 h)
    have ih' := ih (fun r' hr' => hpre r' (List.mem_cons_of_mem _ hr'))
    rw [List.cons_append, release_frames, if_neg hno, ih', List.cons_append]

theorem release_frames_none (reg : List ContFramePool) (x : Nat)
    (hreg : ∀ r, r ∈ reg → r.wf ∧ ¬ r.inRange x) :
    release_frames reg x = reg := by
  induction reg with
  | nil => rfl
  | cons r reg ih =>
    have hr := hreg r (List.mem_cons_self _ _)
    have hno : ¬ (x ≥ r.base_frame_num ∧ x < u32 (r.base_frame_num + r.num_frames)) :=
      fun h => hr.2 ((inRange_iff_test r x hr.1).1 h)
    simp only [release_frames, if_neg hno]
    rw [ih (fun r' hr' => hreg r' (List.mem_cons_of_mem _ hr'))]

/-- Releasing the head of the run `[s, s + n)` that was just marked in `p`. -/
theorem release_marked (p : ContFramePool) (s n : Nat) (hwf : p.wf) (hn : 1 ≤ n)
    (hfit : s + n ≤ p.num_frames) (hfree : p.freeRun s n) :
    (release_frame (marked p s n) (p.base_frame_num + s)).base_frame_num = p.base_frame_num ∧
    (release_frame (marked p s n) (p.base_frame_num + s)).num_frames = p.num_frames ∧
    (∀ j, j < n → (release_frame (marked p s n) (p.base_frame_num + s)).frameState (s + j) = FREE) ∧
    (∀ i, i < s → (release_frame (marked p s n) (p.base_frame_num + s)).frameState i
        = p.frameState i) ∧
    (p.frameState (s + n) ≠ ALLOCATED → ∀ i, s + n ≤ i →
      (release_frame (marked p s n) (p.base_frame_num + s)).frameState i = p.frameState i) := by
  unfold wf at hwf
  have e2 : sub32 (p.base_frame_num + s) (marked p s n).base_frame_num = s := by
    rw [Nat.add_comm]; exact sub32_add_left _ _ (by show s + p.base_frame_num < _; omega)
  have e3 : u32 ((marked p s n).base_frame_num + (marked p s n).num_frames)
      = p.base_frame_num + p.num_frames := u32_of_lt _ hwf
  have hm := frameState_marked p s n
  have hhead : readState (marked p s n).managementHead s = HEAD_OF_SEQUENCE := by
    have := hm s
    rw [if_pos (by omega), if_pos rfl] at this
    exact this
  have hrel : release_frame (marked p s n) (p.base_frame_num + s) =
      { marked p s n with managementHead := releaseLoop (p.base_frame_num + p.num_frames - s) s (writeState (marked p s n).managementHead s ALLOCATED) } := by
    simp only [release_frame, e2, e3, hhead, if_true]
  rw [hrel]
  -- states after the head has been rewritten to ALLOCATED
  have hmem1 : ∀ j, readState (writeState (marked p s n).managementHead s ALLOCATED) j =
      if s ≤ j ∧ j < s + n then ALLOCATED else p.frameState j := by
    intro j
    by_cases hj : j = s
    · subst hj
      rw [readState_writeState_same _ _ _ (by decide), if_pos (by omega)]
    · rw [readState_writeState_other _ _ _ _ (by decide) (fun h => hj h.symm)]
      have := hm j
      unfold frameState at this
      rw [this]
      by_cases hin : s ≤ j ∧ j < s + n
      · rw [if_pos hin, if_pos hin, if_neg hj]
      · rw [if_neg hin, if_neg hin]; rfl
  refine ⟨rfl, rfl, ?_, ?_, ?_⟩
  · intro j hj
    show readState (releaseLoop _ _ _) (s + j) = FREE
    apply releaseLoop_run _ _ _ n (by omega) _ j hj
    intro k hk
    rw [hmem1, if_pos (by omega)]
  · intro i hi
    show readState (releaseLoop _ _ _) i = _
    rcases releaseLoop_cases (p.base_frame_num + p.num_frames - s) s
      (writeState (marked p s n).managementHead s ALLOCATED) i with h | h
    · rw [h, hmem1, if_neg (by omega)]
    · omega
  · intro hstop i hi
    show readState (releaseLoop _ _ _) i = _
    rw [releaseLoop_stop _ _ _ n _ _ i hi, hmem1, if_neg (by omega)]
    · intro k hk
      rw [hmem1, if_pos (by omega)]
    · rw [hmem1, if_neg (by omega)]
      exact hstop

end ContFramePool

/-! ## A freshly constructed allocator -/

namespace ContFramePool

theorem zeroLoop_read : ∀ count i mem a,
    zeroLoop count i mem a = if i ≤ a ∧ a < i + count then 0 else mem a := by
  intro count
  induction count with
  | zero =>
    intro i mem a
    have h0 : ¬ (i ≤ a ∧ a < i + 0) := by omega
    rw [zeroLoop, if_neg h0]
  | succ count ih =>
    intro i mem a
    rw [zeroLoop, ih]
    by_cases h1 : i + 1 ≤ a ∧ a < i + 1 + count
    · rw [if_pos h1, if_pos (by omega)]
    · rw [if_neg h1]
      unfold storeByte
      by_cases h2 : a = i
      · rw [if_pos h2, if_pos (by omega)]
      · rw [if_neg h2, if_neg (by omega)]

theorem readState_zeroLoop (count : Nat) (mem : Nat → Nat) (j : Nat) (hj : j < 4 * count) :
    readState (zeroLoop count 0 mem) j = FREE := by
  unfold readState
  have hidx : j >>> 2 < count := by
    rw [Nat.shiftRight_eq_div_pow]; omega
  simp only [zeroLoop_read, Nat.zero_le, true_and, Nat.zero_add, if_pos hidx,
    Nat.zero_shiftRight, Nat.zero_and, FREE]

theorem get_frames_freeFrom (p : ContFramePool) (n a e : Nat) (hwf : p.wf) (hn : 1 ≤ n)
    (hfit : a + n ≤ e) (he : e ≤ p.num_frames) (hp : p.freeFrom a e) :
    get_frames p n = (p.base_frame_num + a, marked p a n) ∧
      (marked p a n).freeFrom (a + n) e := by
  obtain ⟨hlow, hhigh⟩ := hp
  have hrun : p.hasFreeRun n := ⟨a, by omega, fun j hj => hhigh _ (by omega) (by omega)⟩
  obtain ⟨s, hs, hfree, hleast, hget⟩ := get_frames_success p n hwf hn hrun
  have hsa : s = a := by
    rcases Nat.lt_trichotomy s a with h | h | h
    · have := hfree 0 (by omega)
      exact absurd this (hlow _ (by omega))
    · exact h
    · exact absurd (fun j hj => hhigh _ (by omega) (by omega)) (hleast a h)
  subst hsa
  refine ⟨hget, ?_, ?_⟩
  · intro j hj
    rw [frameState_marked]
    by_cases hin : s ≤ j ∧ j < s + n
    · rw [if_pos hin]
      by_cases h : j = s
      · rw [if_pos h]; decide
      · rw [if_neg h]; decide
    · rw [if_neg hin]
      exact hlow j (by omega)
  · intro j h1 h2
    rw [frameState_marked, if_neg (by omega)]
    exact hhigh j (by omega) h2

theorem needed_info_frames_eq (count : Nat) (hc : count < 4294967296) :
    needed_info_frames count = count / 16384 + (if count % 16384 ≠ 0 then 1 else 0) := by
  unfold needed_info_frames FRAME_SIZE
  apply u32_of_lt
  split <;> omega

theorem init_freeFrom (base count info ninfo : Nat) (storage : Nat → Nat)
    (hwf : base + count < 4294967296) :
    (init base count info ninfo storage).base_frame_num = base ∧
    (init base count info ninfo storage).num_frames = count ∧
    (init base count info ninfo storage).freeFrom
      (if info = 0 then needed_info_frames count else 0) (4 * (count / 4)) := by
  have hzero : ∀ j, j < 4 * (count / 4) →
      readState (zeroLoop (count >>> 2) 0 storage) j = FREE := by
    intro j hj
    apply readState_zeroLoop
    rw [Nat.shiftRight_eq_div_pow]; exact hj
  by_cases hinfo : info = 0
  · have hneed := needed_info_frames_eq count (by omega)
    have hk : needed_info_frames count < 4294967296 := by
      rw [hneed]; split <;> omega
    have e1 : sub32 base base = 0 := by
      have := sub32_add_left 0 base (by omega)
      simpa using this
    have hinit : init base count info ninfo storage =
        marked ⟨base, count, zeroLoop (count >>> 2) 0 storage⟩ 0 (needed_info_frames count) := by
      simp only [init, hinfo, if_true, mark_inaccessible, e1, Nat.zero_add, u32_of_lt _ hk,
        Nat.sub_zero, marked, Bool.false_eq_true, if_false]
    rw [hinit, if_pos hinfo]
    refine ⟨rfl, rfl, ?_, ?_⟩
    · intro j hj
      rw [frameState_marked, if_pos (by omega)]
      by_cases h : j = 0
      · rw [if_pos h]; decide
      · rw [if_neg h]; decide
    · intro j h1 h2
      rw [frameState_marked, if_neg (by omega)]
      exact hzero j h2
  · simp only [init, if_neg hinfo]
    refine ⟨trivial, trivial, fun j hj => absurd hj (by omega), fun j _ h2 => hzero j h2⟩

end ContFramePool

/-! ## Off-limits frames, failure and the registry -/

namespace ContFramePool

theorem frameState_mark_off (p : ContFramePool) (a m j : Nat) (hwf : p.wf)
    (ham : a + m ≤ p.num_frames) :
    (mark_inaccessible p (p.base_frame_num + a) m true).frameState j =
      if a ≤ j ∧ j < a + m then OFF_LIMITS else p.frameState j := by
  unfold wf at hwf
  have e2 : sub32 (p.base_frame_num + a) p.base_frame_num = a := by
    rw [Nat.add_comm]; exact sub32_add_left _ _ (by omega)
  have e3 : u32 (a + m) = a + m := u32_of_lt _ (by omega)
  simp only [mark_inaccessible, frameState, e2, e3, Nat.add_sub_cancel_left, if_true]
  rw [markLoop_read _ _ _ (by decide) (by decide)]
  by_cases hin : a ≤ j ∧ j < a + m
  · rw [if_pos hin, if_pos hin]; split <;> rfl
  · rw [if_neg hin, if_neg hin]

theorem get_frames_zero (p : ContFramePool) : (get_frames p 0).2 = p := by
  unfold get_frames
  cases hscan : scanLoop p.managementHead 0 p.num_frames 0 0 0 with
  | none => rfl
  | some s =>
    have hlt : sub32 (u32 (s + p.base_frame_num)) p.base_frame_num < 4294967296 :=
      Nat.mod_lt _ (by norm_num)
    simp only [mark_inaccessible, Nat.add_zero, u32_of_lt _ hlt, Nat.sub_self, markLoop]

theorem get_frames_keeps_off (p : ContFramePool) (n : Nat) (hwf : p.wf) (i : Nat)
    (hoff : p.frameState i = OFF_LIMITS) :
    (get_frames p n).2.frameState i = OFF_LIMITS := by
  rcases Nat.eq_zero_or_pos n with h0 | hn
  · rw [h0, get_frames_zero]; exact hoff
  · by_cases hrun : p.hasFreeRun n
    · obtain ⟨s, _, hfree, _, hget⟩ := get_frames_success p n hwf hn hrun
      rw [hget]
      show (marked p s n).frameState i = _
      rw [frameState_marked]
      by_cases hin : s ≤ i ∧ i < s + n
      · have := hfree (i - s) (by omega)
        rw [show s + (i - s) = i by omega, hoff] at this
        exact absurd this (by decide)
      · rw [if_neg hin]; exact hoff
    · rw [get_frames_fail p n hn hrun]; exact hoff

theorem release_frame_keeps_off (q : ContFramePool) (x : Nat) : keepsOffLimits q (release_frame q x) := by
  unfold release_frame
  by_cases hhead : readState q.managementHead (sub32 x q.base_frame_num) = HEAD_OF_SEQUENCE
  · rw [if_pos hhead]
    refine ⟨rfl, rfl, fun i hoff => ?_⟩
    show readState (releaseLoop _ _ _) i = _
    have hne : sub32 x q.base_frame_num ≠ i := by
      intro h
      rw [h] at hhead
      unfold frameState at hoff
      rw [hoff] at hhead
      revert hhead; decide
    have h1 : readState (writeState q.managementHead (sub32 x q.base_frame_num) ALLOCATED) i
        = OFF_LIMITS := by
      rw [readState_writeState_other _ _ _ _ (by decide) hne]; exact hoff
    rcases releaseLoop_cases (u32 (q.base_frame_num + q.num_frames) - sub32 x q.base_frame_num)
      (sub32 x q.base_frame_num)
      (writeState q.managementHead (sub32 x q.base_frame_num) ALLOCATED) i with h | h
    · rw [h, h1]
    · rw [h1] at h
      exact absurd h.2.2.1 (by decide)
  · rw [if_neg hhead]
    exact ⟨rfl, rfl, fun i h => h⟩

theorem release_frames_keeps_off (reg : List ContFramePool) (x : Nat) :
    List.Forall₂ keepsOffLimits reg (release_frames reg x) := by
  have hrefl : ∀ l : List ContFramePool, List.Forall₂ keepsOffLimits l l := by
    intro l
    induction l with
    | nil => exact List.Forall₂.nil
    | cons q l ih => exact List.Forall₂.cons ⟨rfl, rfl, fun i h => h⟩ ih
  induction reg with
  | nil => exact List.Forall₂.nil
  | cons q rest ih =>
    unfold release_frames
    split
    · exact List.Forall₂.cons (release_frame_keeps_off q x) (hrefl rest)
    · exact List.Forall₂.cons ⟨rfl, rfl, fun i h => h⟩ ih

theorem addToList_eq_append (reg : List ContFramePool) (p : ContFramePool) :
    addToList reg p = reg ++ [p] := by
  induction reg with
  | nil => rfl
  | cons q rest ih => rw [addToList, ih, List.cons_append]

end ContFramePool

/-! ## Claims about the frame allocator -/

namespace ContFramePool

/-- C1: whenever the managed range of a well-formed allocator contains a run of `n ≥ 1`
consecutive `FREE` frames, `get_frames n` returns an absolute frame number
`f = base_frame_num + s` with `base_frame_num ≤ f` and `f + n ≤ base_frame_num + num_frames`;
the frames `[f, f + n)` were all `FREE` before the call, and in the allocator `p1` left by
the call frame `f` is `HEAD_OF_SEQUENCE` and the frames of `(f, f + n)` are `ALLOCATED`. -/
theorem get_frames_allocates_free_run (p : ContFramePool) (n : Nat) (hwf : p.wf) (hn : 1 ≤ n)
    (hrun : p.hasFreeRun n) :
    ∃ s p1, get_frames p n = (p.base_frame_num + s, p1) ∧
      p.base_frame_num ≤ p.base_frame_num + s ∧
      p.base_frame_num + s + n ≤ p.base_frame_num + p.num_frames ∧
      (∀ j, j < n → p.frameState (s + j) = FREE) ∧
      p1.frameState s = HEAD_OF_SEQUENCE ∧
      (∀ j, 0 < j → j < n → p1.frameState (s + j) = ALLOCATED) ∧
      p1.base_frame_num = p.base_frame_num ∧ p1.num_frames = p.num_frames := by
  obtain ⟨s, hfit, hfree, _, hget⟩ := get_frames_success p n hwf hn hrun
  refine ⟨s, marked p s n, hget, Nat.le_add_right _ _, by omega, hfree, ?_, ?_, rfl, rfl⟩
  · rw [frameState_marked, if_pos (by omega), if_pos rfl]
  · intro j h0 hj
    rw [frameState_marked, if_pos (by omega), if_neg (by omega)]

theorem get_frames_allocates_free_run_witness :
    samplePool.wf ∧ 1 ≤ 2 ∧ samplePool.hasFreeRun 2 ∧
    ∃ s p1, get_frames samplePool 2 = (samplePool.base_frame_num + s, p1) ∧
      samplePool.base_frame_num ≤ samplePool.base_frame_num + s ∧
      samplePool.base_frame_num + s + 2 ≤ samplePool.base_frame_num + samplePool.num_frames ∧
      (∀ j, j < 2 → samplePool.frameState (s + j) = FREE) ∧
      p1.frameState s = HEAD_OF_SEQUENCE ∧
      (∀ j, 0 < j → j < 2 → p1.frameState (s + j) = ALLOCATED) ∧
      p1.base_frame_num = samplePool.base_frame_num ∧
      p1.num_frames = samplePool.num_frames :=
  ⟨by decide, by decide, ⟨2, by decide, by unfold freeRun; decide⟩,
    get_frames_allocates_free_run samplePool 2 (by decide) (by decide)
      ⟨2, by decide, by unfold freeRun; decide⟩⟩

/-- C2: in a well-formed allocator that satisfies the run invariant, when `get_frames n`
(`n ≥ 1`) succeeds with frame `f = base_frame_num + s`, leaving the allocator `p1`, the
global `release_frames f` that follows (the allocator being the first registered one whose
range contains `f`) is `release_frame f` on that allocator and touches no other one;
afterwards every frame of `[f, f + n)` is `FREE`, every other managed frame has the state it
had after the allocation, and so every managed frame has the state it had before the
allocation.  When the run does not reach the last managed frame, this holds for every slot
of the bitmap storage, managed or not. -/
theorem release_frames_undoes_get_frames (p : ContFramePool) (n : Nat) (hwf : p.wf)
    (hn : 1 ≤ n) (hinv : p.runInvariant) (hrun : p.hasFreeRun n)
    (pre post : List ContFramePool)
    (hpre : ∀ q, q ∈ pre → q.wf ∧ ¬ q.inRange (get_frames p n).1) :
    ∃ s p1, get_frames p n = (p.base_frame_num + s, p1) ∧ s + n ≤ p.num_frames ∧
      release_frames (pre ++ p1 :: post) (p.base_frame_num + s) =
        pre ++ release_frame p1 (p.base_frame_num + s) :: post ∧
      (∀ j, j < n → (release_frame p1 (p.base_frame_num + s)).frameState (s + j) = FREE) ∧
      (∀ i, i < p.num_frames → ¬ (s ≤ i ∧ i < s + n) →
        (release_frame p1 (p.base_frame_num + s)).frameState i = p1.frameState i) ∧
      (∀ i, i < p.num_frames →
        (release_frame p1 (p.base_frame_num + s)).frameState i = p.frameState i) ∧
      (s + n < p.num_frames →
        ∀ i, (release_frame p1 (p.base_frame_num + s)).frameState i = p.frameState i) := by
  obtain ⟨s, hfit, hfree, _, hget⟩ := get_frames_success p n hwf hn hrun
  rw [hget] at hpre
  obtain ⟨_, _, hrunfree, hbelow, habove⟩ := release_marked p s n hwf hn hfit hfree
  have hstop : s + n < p.num_frames → p.frameState (s + n) ≠ ALLOCATED := by
    intro hlt ha
    have := (hinv (s + n) hlt ha).2
    have hf := hfree (n - 1) (by omega)
    rw [show s + n - 1 = s + (n - 1) by omega, hf] at this
    revert this; decide
  have hrestored : ∀ i, s ≤ i ∧ i < s + n →
      (release_frame (marked p s n) (p.base_frame_num + s)).frameState i = p.frameState i := by
    intro i hin
    have h1 := hrunfree (i - s) (by omega)
    have h2 := hfree (i - s) (by omega)
    rw [show s + (i - s) = i by omega] at h1 h2
    rw [h1, h2]
  have hother : ∀ i, (i < p.num_frames ∨ s + n < p.num_frames) → ¬ (s ≤ i ∧ i < s + n) →
      (release_frame (marked p s n) (p.base_frame_num + s)).frameState i = p.frameState i := by
    intro i hi hout
    by_cases hlo : i < s
    · exact hbelow i hlo
    · exact habove (hstop (by omega)) i (by omega)
  refine ⟨s, marked p s n, hget, hfit, ?_, hrunfree, ?_, ?_, ?_⟩
  · apply release_frames_first _ _ _ _ hpre
    · exact hwf
    · unfold inRange
      show p.base_frame_num ≤ _ ∧ _ < p.base_frame_num + p.num_frames
      omega
  · intro i hi hout
    rw [hother i (Or.inl hi) hout, frameState_marked, if_neg hout]
  · intro i hi
    by_cases hin : s ≤ i ∧ i < s + n
    · exact hrestored i hin
    · exact hother i (Or.inl hi) hin
  · intro hlt i
    by_cases hin : s ≤ i ∧ i < s + n
    · exact hrestored i hin
    · exact hother i (Or.inr hlt) hin

theorem release_frames_undoes_get_frames_witness :
    samplePool.wf ∧ 1 ≤ 2 ∧ samplePool.runInvariant ∧ samplePool.hasFreeRun 2 ∧
    (∀ q, q ∈ [otherPool] → q.wf ∧ ¬ q.inRange (get_frames samplePool 2).1) ∧
    ∃ s p1, get_frames samplePool 2 = (samplePool.base_frame_num + s, p1) ∧
      s + 2 ≤ samplePool.num_frames ∧
      release_frames ([otherPool] ++ p1 :: []) (samplePool.base_frame_num + s) =
        [otherPool] ++ release_frame p1 (samplePool.base_frame_num + s) :: [] ∧
      (∀ j, j < 2 →
        (release_frame p1 (samplePool.base_frame_num + s)).frameState (s + j) = FREE) ∧
      (∀ i, i < samplePool.num_frames → ¬ (s ≤ i ∧ i < s + 2) →
        (release_frame p1 (samplePool.base_frame_num + s)).frameState i = p1.frameState i) ∧
      (∀ i, i < samplePool.num_frames →
        (release_frame p1 (samplePool.base_frame_num + s)).frameState i
          = samplePool.frameState i) ∧
      (s + 2 < samplePool.num_frames →
        ∀ i, (release_frame p1 (samplePool.base_frame_num + s)).frameState i
          = samplePool.frameState i) :=
  ⟨by decide, by decide, by unfold runInvariant; decide,
    ⟨2, by decide, by unfold freeRun; decide⟩, by decide,
    release_frames_undoes_get_frames samplePool 2 (by decide) (by decide)
      (by unfold runInvariant; decide) ⟨2, by decide, by unfold freeRun; decide⟩
      [otherPool] [] (by decide)⟩

/-- C3: `get_frames` is first-fit.  In a well-formed allocator with a run of `n ≥ 1`
consecutive `FREE` frames, `get_frames n` returns `base_frame_num + s` where `s` is the
lowest relative index at which `n` consecutive `FREE` frames start; the result depends on
the bitmap only, not on earlier calls.  In particular, on a freshly constructed allocator
(self-hosted or with external bookkeeping, whatever the bitmap storage held before) that
has room for six frames between its `k` bookkeeping frames (`needed_info_frames count` when
self-hosted, none otherwise) and the end of the zeroed part of the bitmap, the successive calls `get_frames 1`, `get_frames 3`, `get_frames 2` return the
frames `base + k`, `base + k + 1`, `base + k + 4`: strictly increasing, pairwise disjoint
runs inside the managed range. -/
theorem get_frames_first_fit (p : ContFramePool) (n : Nat) (hwf : p.wf) (hn : 1 ≤ n)
    (hrun : p.hasFreeRun n)
    (base count info ninfo : Nat) (storage : Nat → Nat)
    (hfresh : base + count < 4294967296)
    (hsize : needed_info_frames count + 6 ≤ 4 * (count / 4)) :
    (∃ s p1, get_frames p n = (p.base_frame_num + s, p1) ∧ s + n ≤ p.num_frames ∧
      p.freeRun s n ∧ ∀ t, t < s → ¬ p.freeRun t n) ∧
    (∃ k a1 a2 a3, k = (if info = 0 then needed_info_frames count else 0) ∧
      get_frames (init base count info ninfo storage) 1 = (base + k, a1) ∧
      get_frames a1 3 = (base + k + 1, a2) ∧
      get_frames a2 2 = (base + k + 1 + 3, a3) ∧
      base ≤ base + k ∧ base + k + 1 + 3 + 2 ≤ base + count) := by
  constructor
  · obtain ⟨s, hfit, hfree, hleast, hget⟩ := get_frames_success p n hwf hn hrun
    exact ⟨s, _, hget, hfit, hfree, hleast⟩
  · obtain ⟨hb, hc, hff⟩ := init_freeFrom base count info ninfo storage hfresh
    generalize init base count info ninfo storage = a0 at hb hc hff ⊢
    obtain ⟨k, hk⟩ : ∃ k, k = (if info = 0 then needed_info_frames count else 0) := ⟨_, rfl⟩
    rw [← hk] at hff
    have hk6 : k + 6 ≤ 4 * (count / 4) := by
      rw [hk]; split <;> omega
    have hwf0 : a0.wf := by unfold wf; rw [hb, hc]; exact hfresh
    obtain ⟨g1, f1⟩ := get_frames_freeFrom a0 1 k (4 * (count / 4)) hwf0 (by omega) (by omega)
      (by rw [hc]; omega) hff
    have hwf1 : (marked a0 k 1).wf := hwf0
    obtain ⟨g2, f2⟩ := get_frames_freeFrom (marked a0 k 1) 3 (k + 1) (4 * (count / 4)) hwf1
      (by omega) (by omega) (by show _ ≤ a0.num_frames; rw [hc]; omega) f1
    have hwf2 : (marked (marked a0 k 1) (k + 1) 3).wf := hwf0
    obtain ⟨g3, _⟩ := get_frames_freeFrom (marked (marked a0 k 1) (k + 1) 3) 2 (k + 1 + 3)
      (4 * (count / 4)) hwf2 (by omega) (by omega) (by show _ ≤ a0.num_frames; rw [hc]; omega) f2
    have hb1 : (marked a0 k 1).base_frame_num = base := hb
    have hb2 : (marked (marked a0 k 1) (k + 1) 3).base_frame_num = base := hb
    rw [hb] at g1
    rw [hb1] at g2
    rw [hb2] at g3
    exact ⟨k, _, _, _, hk, g1, g2, g3, Nat.le_add_right _ _, by omega⟩

theorem get_frames_first_fit_witness :
    samplePool.wf ∧ 1 ≤ 2 ∧ samplePool.hasFreeRun 2 ∧ 512 + 512 < 4294967296 ∧
    needed_info_frames 512 + 6 ≤ 4 * (512 / 4) ∧
    (∃ s p1, get_frames samplePool 2 = (samplePool.base_frame_num + s, p1) ∧
      s + 2 ≤ samplePool.num_frames ∧
      samplePool.freeRun s 2 ∧ ∀ t, t < s → ¬ samplePool.freeRun t 2) ∧
    (∃ k a1 a2 a3, k = (if 0 = 0 then needed_info_frames 512 else 0) ∧
      get_frames (init 512 512 0 0 (fun _ => 255)) 1 = (512 + k, a1) ∧
      get_frames a1 3 = (512 + k + 1, a2) ∧
      get_frames a2 2 = (512 + k + 1 + 3, a3) ∧
      512 ≤ 512 + k ∧ 512 + k + 1 + 3 + 2 ≤ 512 + 512) :=
  ⟨by decide, by decide, ⟨2, by decide, by unfold freeRun; decide⟩, by decide, by decide,
    get_frames_first_fit samplePool 2 (by decide) (by decide)
      ⟨2, by decide, by unfold freeRun; decide⟩ 512 512 0 0 (fun _ => 255) (by decide)
      (by decide)⟩

/-- C4 (as stated, refuted): the allocator `zeroBasePool` starts at frame 0 and all its
frames are free; `get_frames 1` succeeds there, marks frame 0 as `HEAD_OF_SEQUENCE`, and
returns the frame number 0, the value that also signals failure.  So a return value of 0
does not imply that no free run exists, nor that the bitmap is unchanged. -/
theorem get_frames_zero_is_ambiguous :
    ¬ ((get_frames zeroBasePool 1).1 = 0 ↔ ¬ zeroBasePool.hasFreeRun 1) ∧
    (get_frames zeroBasePool 1).1 = 0 ∧
    zeroBasePool.frameState 0 = FREE ∧
    (get_frames zeroBasePool 1).2.frameState 0 = HEAD_OF_SEQUENCE := by
  have hrun : zeroBasePool.hasFreeRun 1 := ⟨0, by decide, by unfold freeRun; decide⟩
  refine ⟨fun h => h.1 (by decide) hrun, by decide, by decide, by decide⟩

/-- C4 (amended): for a well-formed allocator and `n ≥ 1`: when the managed range has no
run of `n` consecutive `FREE` frames, `get_frames n` returns 0 and leaves the allocator
unchanged — in particular after `mark_inaccessible` with the off-limits flag has covered
frames `[a, a + m)` that every free run of length `n` met; when there is such a run,
`get_frames n` can return 0 only for the run starting at frame 0 of an allocator whose
`base_frame_num` is 0; hence for `base_frame_num ≥ 1` it returns 0 exactly when there is no
such run. -/
theorem get_frames_failure (p : ContFramePool) (n : Nat) (hwf : p.wf) (hn : 1 ≤ n) :
    (¬ p.hasFreeRun n → get_frames p n = (0, p)) ∧
    (∀ a m, a + m ≤ p.num_frames →
      (∀ s, s + n ≤ p.num_frames → p.freeRun s n → ∃ j, j < n ∧ a ≤ s + j ∧ s + j < a + m) →
      get_frames (mark_inaccessible p (p.base_frame_num + a) m true) n =
        (0, mark_inaccessible p (p.base_frame_num + a) m true)) ∧
    (p.hasFreeRun n → (get_frames p n).1 = 0 → p.base_frame_num = 0 ∧ p.freeRun 0 n) ∧
    (1 ≤ p.base_frame_num → ((get_frames p n).1 = 0 ↔ ¬ p.hasFreeRun n)) := by
  have hsucc : p.hasFreeRun n → (get_frames p n).1 = 0 → p.base_frame_num = 0 ∧ p.freeRun 0 n := by
    intro hrun h0
    obtain ⟨s, _, hfree, _, hget⟩ := get_frames_success p n hwf hn hrun
    rw [hget] at h0
    have hs : s = 0 := by
      have : p.base_frame_num + s = 0 := h0
      omega
    subst hs
    exact ⟨by have : p.base_frame_num + 0 = 0 := h0; omega, hfree⟩
  refine ⟨get_frames_fail p n hn, ?_, hsucc, ?_⟩
  · intro a m ham hmeet
    apply get_frames_fail _ n hn
    rintro ⟨s, hs, hfree⟩
    have hfree' : p.freeRun s n := by
      intro j hj
      have := hfree j hj
      rw [frameState_mark_off p a m _ hwf ham] at this
      by_cases hin : a ≤ s + j ∧ s + j < a + m
      · rw [if_pos hin] at this
        exact absurd this (by decide)
      · rw [if_neg hin] at this
        exact this
    obtain ⟨j, hj, hin1, hin2⟩ := hmeet s hs hfree'
    have := hfree j hj
    rw [frameState_mark_off p a m _ hwf ham, if_pos ⟨hin1, hin2⟩] at this
    exact absurd this (by decide)
  · intro hbase
    constructor
    · intro h0 hrun
      have := (hsucc hrun h0).1
      omega
    · intro hrun
      rw [get_frames_fail p n hn hrun]

theorem get_frames_failure_witness :
    samplePool.wf ∧ 1 ≤ 7 ∧
    (¬ samplePool.hasFreeRun 7 → get_frames samplePool 7 = (0, samplePool)) ∧
    (∀ a m, a + m ≤ samplePool.num_frames →
      (∀ s, s + 7 ≤ samplePool.num_frames → samplePool.freeRun s 7 →
        ∃ j, j < 7 ∧ a ≤ s + j ∧ s + j < a + m) →
      get_frames (mark_inaccessible samplePool (samplePool.base_frame_num + a) m true) 7 =
        (0, mark_inaccessible samplePool (samplePool.base_frame_num + a) m true)) ∧
    (samplePool.hasFreeRun 7 → (get_frames samplePool 7).1 = 0 →
      samplePool.base_frame_num = 0 ∧ samplePool.freeRun 0 7) ∧
    (1 ≤ samplePool.base_frame_num →
      ((get_frames samplePool 7).1 = 0 ↔ ¬ samplePool.hasFreeRun 7)) :=
  ⟨by decide, by decide, get_frames_failure samplePool 7 (by decide) (by decide)⟩

/-- C5: in a well-formed allocator, `mark_inaccessible` with the off-limits flag makes
every frame of the given range `OFF_LIMITS`; a frame that is `OFF_LIMITS` is still
`OFF_LIMITS` after any `get_frames n`, and in every allocator of any registry after any
global `release_frames x`; and a run returned by a successful `get_frames n` contains no
`OFF_LIMITS` frame. -/
theorem off_limits_frames_stay (p : ContFramePool) (n : Nat) (hwf : p.wf) (a m : Nat)
    (ham : a + m ≤ p.num_frames) (reg : List ContFramePool) (x : Nat) :
    (∀ j, a ≤ j → j < a + m →
      (mark_inaccessible p (p.base_frame_num + a) m true).frameState j = OFF_LIMITS) ∧
    (∀ i, p.frameState i = OFF_LIMITS → (get_frames p n).2.frameState i = OFF_LIMITS) ∧
    (1 ≤ n → p.hasFreeRun n → ∀ i, p.frameState i = OFF_LIMITS →
      ¬ ((get_frames p n).1 ≤ p.base_frame_num + i ∧
          p.base_frame_num + i < (get_frames p n).1 + n)) ∧
    List.Forall₂ keepsOffLimits reg (release_frames reg x) := by
  refine ⟨?_, fun i h => get_frames_keeps_off p n hwf i h, ?_, release_frames_keeps_off reg x⟩
  · intro j h1 h2
    rw [frameState_mark_off p a m j hwf ham, if_pos ⟨h1, h2⟩]
  · intro hn hrun i hoff hin
    obtain ⟨s, _, hfree, _, hget⟩ := get_frames_success p n hwf hn hrun
    rw [hget] at hin
    have hin' : p.base_frame_num + s ≤ p.base_frame_num + i ∧
        p.base_frame_num + i < p.base_frame_num + s + n := hin
    have := hfree (i - s) (by omega)
    rw [show s + (i - s) = i by omega, hoff] at this
    exact absurd this (by decide)

theorem off_limits_frames_stay_witness :
    samplePool.wf ∧ 4 + 2 ≤ samplePool.num_frames ∧
    (∀ j, 4 ≤ j → j < 4 + 2 →
      (mark_inaccessible samplePool (samplePool.base_frame_num + 4) 2 true).frameState j
        = OFF_LIMITS) ∧
    (∀ i, samplePool.frameState i = OFF_LIMITS →
      (get_frames samplePool 2).2.frameState i = OFF_LIMITS) ∧
    (1 ≤ 2 → samplePool.hasFreeRun 2 → ∀ i, samplePool.frameState i = OFF_LIMITS →
      ¬ ((get_frames samplePool 2).1 ≤ samplePool.base_frame_num + i ∧
          samplePool.base_frame_num + i < (get_frames samplePool 2).1 + 2)) ∧
    List.Forall₂ keepsOffLimits [otherPool, samplePool]
      (release_frames [otherPool, samplePool] 512) :=
  ⟨by decide, by decide,
    off_limits_frames_stay samplePool 2 (by decide) 4 2 (by decide) [otherPool, samplePool] 512⟩

/-- C6: in a registry of well-formed allocators (insertion order: `addToList` appends), the
global `release_frames x` is `release_frame x` on the first allocator whose range
`[base_frame_num, base_frame_num + num_frames)` contains `x`; the allocators before and
after it are unchanged, and the registry is unchanged when no range contains `x`. -/
theorem release_frames_dispatch (reg : List ContFramePool) (x : Nat)
    (hwf : ∀ q, q ∈ reg → q.wf) :
    (∀ pre q post, reg = pre ++ q :: post → (∀ r, r ∈ pre → ¬ r.inRange x) → q.inRange x →
      release_frames reg x = pre ++ release_frame q x :: post) ∧
    ((∀ r, r ∈ reg → ¬ r.inRange x) → release_frames reg x = reg) ∧
    (∀ q, addToList reg q = reg ++ [q]) := by
  refine ⟨?_, ?_, addToList_eq_append reg⟩
  · intro pre q post hreg hpre hq
    subst hreg
    exact release_frames_first pre q post x
      (fun r hr => ⟨hwf r (List.mem_append_left _ hr), hpre r hr⟩)
      (hwf q (List.mem_append_right _ (List.mem_cons_self _ _))) hq
  · intro hno
    exact release_frames_none reg x (fun r hr => ⟨hwf r hr, hno r hr⟩)

theorem release_frames_dispatch_witness :
    (∀ q, q ∈ [otherPool, samplePool] → q.wf) ∧
    (∀ pre q post, [otherPool, samplePool] = pre ++ q :: post →
      (∀ r, r ∈ pre → ¬ r.inRange 512) → q.inRange 512 →
      release_frames [otherPool, samplePool] 512 = pre ++ release_frame q 512 :: post) ∧
    ((∀ r, r ∈ [otherPool, samplePool] → ¬ r.inRange 512) →
      release_frames [otherPool, samplePool] 512 = [otherPool, samplePool]) ∧
    (∀ q, addToList [otherPool, samplePool] q = [otherPool, samplePool] ++ [q]) :=
  ⟨by decide, release_frames_dispatch [otherPool, samplePool] 512 (by decide)⟩

end ContFramePool

/-! ## Claims about the virtual-memory pool -/

namespace VMPool
open PageTable (PAGE_SIZE)

theorem whileLoop_fuel (p : VMPool) (num_pages max_page_no : Nat) :
    ∀ fuel prev first_free r, whileLoop p num_pages max_page_no fuel prev first_free = some r →
      ∀ k, whileLoop p num_pages max_page_no (fuel + k) prev first_free = some r := by
  intro fuel
  induction fuel with
  | zero => intro prev first_free r h; simp [whileLoop] at h
  | succ fuel ih =>
    intro prev first_free r h k
    rw [show fuel + 1 + k = (fuel + k) + 1 by omega]
    rw [whileLoop] at h ⊢
    split
    · rename_i hc
      rw [if_pos hc] at h
      exact ih _ _ _ h k
    · rename_i hc
      rw [if_neg hc] at h
      exact h

theorem find_free_pages_fuel (p : VMPool) (num_pages fuel r : Nat)
    (h : find_free_pages fuel p num_pages = some r) (k : Nat) :
    find_free_pages (fuel + k) p num_pages = some r := by
  unfold find_free_pages at h ⊢
  simp only at h ⊢
  cases hw : whileLoop p num_pages (u32 (p.base_address + p.size) / PAGE_SIZE) fuel 0
      (u32 (p.base_address / PAGE_SIZE + 1)) with
  | none => rw [hw] at h; simp at h
  | some v =>
    rw [whileLoop_fuel _ _ _ _ _ _ _ hw k]
    rw [hw] at h
    exact h

theorem allocate_fuel (p : VMPool) (_size fuel : Nat) (h : (allocate fuel p _size).isSome)
    (k : Nat) : allocate (fuel + k) p _size = allocate fuel p _size := by
  unfold allocate at h ⊢
  simp only at h ⊢
  cases hf : find_free_pages fuel p (_size / PAGE_SIZE) with
  | none => rw [hf] at h; simp at h
  | some v => rw [find_free_pages_fuel _ _ _ _ hf k]

theorem legitLoop_iff (p : VMPool) (x : Nat) : ∀ count i,
    legitLoop p x count i = true ↔
      ∃ j, i ≤ j ∧ j < i + count ∧ u32 ((p.block j).first_page * PAGE_SIZE) ≤ x ∧
        x < u32 (u32 ((p.block j).first_page + (p.block j).size) * PAGE_SIZE) := by
  intro count
  induction count with
  | zero =>
    intro i
    simp only [legitLoop, Bool.false_eq_true, false_iff]
    rintro ⟨j, h1, h2, _⟩
    omega
  | succ count ih =>
    intro i
    rw [legitLoop]
    split
    · rename_i h
      simp only [true_iff]
      exact ⟨i, le_refl _, by omega, h.1, h.2⟩
    · rename_i h
      rw [ih]
      constructor
      · rintro ⟨j, h1, h2, h3⟩
        exact ⟨j, by omega, by omega, h3⟩
      · rintro ⟨j, h1, h2, h3⟩
        by_cases hji : j = i
        · subst hji
          exact absurd ⟨h3.1, h3.2⟩ h
        · exact ⟨j, by omega, by omega, h3⟩

/-- What `is_legitimate` computes: the address is inside `[base_address, base_address + size)`
and either shares the page of `base_address` or passes the test of the loop for some
descriptor, whose upper bound is `(first_page + size) * PAGE_SIZE` in 32-bit arithmetic. -/
theorem is_legitimate_iff (p : VMPool) (x : Nat) :
    is_legitimate p x = true ↔
      (p.base_address ≤ x ∧ x < u32 (p.base_address + p.size)) ∧
      (x / PAGE_SIZE = p.base_address / PAGE_SIZE ∨
        ∃ j, j < p.allocated_list_size ∧ u32 ((p.block j).first_page * PAGE_SIZE) ≤ x ∧
          x < u32 (u32 ((p.block j).first_page + (p.block j).size) * PAGE_SIZE)) := by
  unfold is_legitimate
  split
  · rename_i h
    simp only [Bool.false_eq_true, false_iff]
    rintro ⟨⟨h1, h2⟩, _⟩
    omega
  · rename_i h
    have hr : p.base_address ≤ x ∧ x < u32 (p.base_address + p.size) := by omega
    split
    · rename_i hp
      simp only [true_iff]
      exact ⟨hr, Or.inl hp⟩
    · rename_i hp
      rw [legitLoop_iff]
      constructor
      · rintro ⟨j, _, h2, h3⟩
        exact ⟨hr, Or.inr ⟨j, by omega, h3⟩⟩
      · rintro ⟨_, h | ⟨j, h2, h3⟩⟩
        · exact absurd h hp
        · exact ⟨j, Nat.zero_le _, by omega, h3⟩

/-- What `find_free_pages` guarantees about its result: it is the sentinel 0 or a page
below `max_page_no`; the length of the request does not enter the final test. -/
theorem find_free_pages_lt_max (fuel : Nat) (p : VMPool) (num_pages r : Nat)
    (h : find_free_pages fuel p num_pages = some r) :
    r = 0 ∨ r < u32 (p.base_address + p.size) / PAGE_SIZE := by
  unfold find_free_pages at h
  simp only at h
  split at h
  · simp at h
  · rename_i v _
    split at h
    · left; simpa using h.symm
    · right
      have : v = r := by simpa using h
      omega

/-- C7 (the code at the failing input): the pool `unorderedPool` (pages 1..5000) holds the
descriptors `(4000, 819200)` and `(2, 4096)` in that storage order; their page ranges
`[4000, 4200)` and `[2, 3)` are disjoint.  `allocate 4096` returns the address of page 4098
for every amount of fuel that lets the loop finish, and records the descriptor
`(4098, 4096)`, whose page lies inside the page range `[4000, 4200)` of the descriptor at
index 0. -/
theorem allocate_overlaps_unordered_descriptor :
    unorderedPool.allocated_list_size = 2 ∧
    pageRangesDisjoint (unorderedPool.block 0) (unorderedPool.block 1) ∧
    (∀ k, ∃ p, allocate (3 + k) unorderedPool 4096 = some (4098 * 4096, p) ∧
      p.allocated_list_size = 3 ∧
      p.block 0 = { first_page := 4000, size := 819200 } ∧
      p.block 1 = { first_page := 2, size := 4096 } ∧
      p.block 2 = { first_page := 4098, size := 4096 } ∧
      ¬ pageRangesDisjoint (p.block 0) (p.block 2)) ∧
    (4000 ≤ 4098 ∧ 4098 + 4096 / PAGE_SIZE ≤ 4000 + 819200 / PAGE_SIZE) := by
  refine ⟨rfl, by unfold pageRangesDisjoint; decide, fun k => ?_, by decide⟩
  rw [allocate_fuel _ _ 3 (by decide) k]
  exact ⟨_, rfl, by decide, by decide, by decide, by decide,
    by unfold pageRangesDisjoint; decide⟩

/-- C8 (the code at two failing inputs): (1) in the freshly constructed pool over pages
16..19, `allocate 32768` returns the non-zero address 69632, and right afterwards
`is_legitimate` is false at 81920, an address of `[69632, 69632 + 32768)`; the range handed
out runs past the end of the pool.  (2) In the freshly constructed 256 MB pool at 256 MB,
`allocate 1048576` returns 268439552 and right afterwards `is_legitimate` is false at
that very address, which lies inside the pool: the upper bound
`(first_page + size) * PAGE_SIZE` of the descriptor test wraps around in 32 bits. -/
theorem is_legitimate_false_inside_allocation :
    (∀ k, ∃ p, allocate (2 + k) smallPool 32768 = some (69632, p) ∧
      is_legitimate p 81920 = false) ∧
    (69632 ≤ 81920 ∧ 81920 < 69632 + 32768) ∧
    (∀ k, ∃ p, allocate (2 + k) largePool 1048576 = some (268439552, p) ∧
      is_legitimate p 268439552 = false) ∧
    (largePool.base_address ≤ 268439552 ∧
      268439552 + 1048576 ≤ largePool.base_address + largePool.size) := by
  refine ⟨fun k => ?_, by decide, fun k => ?_, by decide⟩
  · rw [allocate_fuel _ _ 2 (by decide) k]
    exact ⟨_, rfl, by decide⟩
  · rw [allocate_fuel _ _ 2 (by decide) k]
    exact ⟨_, rfl, by decide⟩

/-- C9 (the code at the failing input): in the freshly constructed pool over pages 16..31,
`allocate 4096` records the single descriptor `(17, 4096)`, whose byte range is
`[69632, 73728)`.  The address 73728 lies inside the pool, outside the metadata page and
outside that byte range, yet `is_legitimate` is true there: the test of the loop uses
`(first_page + size) * PAGE_SIZE` as the upper bound. -/
theorem is_legitimate_true_outside_byte_range :
    ∀ k, ∃ p, allocate (2 + k) midPool 4096 = some (69632, p) ∧
      p.allocated_list_size = 1 ∧
      p.block 0 = { first_page := 17, size := 4096 } ∧
      (p.base_address ≤ 73728 ∧ 73728 < p.base_address + p.size) ∧
      73728 / PAGE_SIZE ≠ p.base_address / PAGE_SIZE ∧
      ¬ ((p.block 0).first_page * PAGE_SIZE ≤ 73728 ∧
          73728 < (p.block 0).first_page * PAGE_SIZE + (p.block 0).size) ∧
      is_legitimate p 73728 = true := by
  intro k
  rw [allocate_fuel _ _ 2 (by decide) k]
  exact ⟨_, rfl, by decide, by decide, by decide, by decide, by decide, by decide⟩

/-- C10 (the code at the failing input): in the freshly constructed pool over pages 16..19
(`base_address = 65536`, `size = 16384`), `find_free_pages 8` returns page 17 for every
amount of fuel that lets the loop finish, although `17 + 8` exceeds the end page 20 of the
pool; `allocate 32768` then returns the address 69632 of a range that ends at 102400,
beyond `base_address + size = 81920`. -/
theorem find_free_pages_ignores_pool_end :
    (∀ k, find_free_pages (2 + k) smallPool 8 = some 17) ∧
    ¬ (17 + 8 ≤ (smallPool.base_address + smallPool.size) / PAGE_SIZE) ∧
    (∀ k, ∃ p, allocate (2 + k) smallPool 32768 = some (69632, p) ∧
      p.allocated_list_size = 1 ∧ p.block 0 = { first_page := 17, size := 32768 }) ∧
    smallPool.base_address + smallPool.size < 69632 + 32768 := by
  refine ⟨fun k => find_free_pages_fuel _ _ 2 _ (by decide) k, by decide, fun k => ?_, by decide⟩
  rw [allocate_fuel _ _ 2 (by decide) k]
  exact ⟨_, rfl, by decide, by decide⟩

theorem freeLoop_calls : ∀ count j pt calls,
    (freeLoop count j pt calls).2 = calls ++ List.range' j count := by
  intro count
  induction count with
  | zero => intro j pt calls; simp [freeLoop]
  | succ count ih =>
    intro j pt calls
    rw [freeLoop, ih, List.range'_succ, List.append_assoc, List.singleton_append]

/-- The calls of `free_page` made by `release` and the pool it leaves do not depend on the
page-table state. -/
theorem releaseLoop_independent (p : VMPool) (page_no : Nat) (pt pt' : PageTable.State) :
    ∀ count i, (releaseLoop p page_no pt count i).2 = (releaseLoop p page_no pt' count i).2 := by
  intro count
  induction count with
  | zero => intro i; rfl
  | succ count ih =>
    intro i
    rw [releaseLoop, releaseLoop]
    split
    · simp only [freeLoop_calls]
    · exact ih (i + 1)

theorem release_independent (pt pt' : PageTable.State) (p : VMPool) (a : Nat) :
    (release pt p a).2 = (release pt' p a).2 :=
  releaseLoop_independent p _ pt pt' _ _

/-- What `release` does when no descriptor has the page of the address as first page. -/
theorem releaseLoop_no_match (p : VMPool) (page_no : Nat) (pt : PageTable.State) :
    ∀ count i, (∀ j, i ≤ j → j < i + count → (p.block j).first_page ≠ page_no) →
      releaseLoop p page_no pt count i = (pt, [], p) := by
  intro count
  induction count with
  | zero => intro i _; rfl
  | succ count ih =>
    intro i h
    rw [releaseLoop, if_neg (h i (le_refl _) (by omega))]
    exact ih (i + 1) (fun j h1 h2 => h j (by omega) (by omega))

/-- What `release` does at the first descriptor whose first page is the page of the
address: `free_page` is called for the pages `page_no, …, size - 1`, where `size` is the
byte size stored in the descriptor. -/
theorem releaseLoop_match (p : VMPool) (page_no : Nat) (pt : PageTable.State) :
    ∀ count i m, i ≤ m → m < i + count →
      (∀ j, i ≤ j → j < m → (p.block j).first_page ≠ page_no) →
      (p.block m).first_page = page_no →
      (releaseLoop p page_no pt count i).2 =
        (List.range' page_no ((p.block m).size - page_no), remove_allocated_at p m) := by
  intro count
  induction count with
  | zero => intro i m h1 h2; omega
  | succ count ih =>
    intro i m h1 h2 hbefore hm
    rw [releaseLoop]
    by_cases him : i = m
    · subst him
      rw [if_pos hm]
      simp only [freeLoop_calls, List.nil_append]
    · rw [if_neg (hbefore i (le_refl _) (by omega))]
      exact ih (i + 1) m (by omega) (by omega) (fun j h3 h4 => hbefore j (by omega) h4) hm

/-- C11 (the code at the failing inputs): (1) in the freshly constructed 256 MB pool at
256 MB, `allocate 4096` records the descriptor `(65537, 4096)`, whose page range is
`[65537, 65538)`; `release` of the returned address calls `free_page` for no page at all,
because the loop runs while `j < size` with `size = 4096` bytes.  (2) In the freshly
constructed pool over pages 16..31, `allocate 4096` records `(17, 4096)`, page range
`[17, 18)`; `release` calls `free_page` for the 4079 pages `17, …, 4095`, among them page
18, which is outside the descriptor's range. -/
theorem release_frees_wrong_pages :
    (∀ pt k, ∃ p, allocate (2 + k) largePool 4096 = some (268439552, p) ∧
      p.block 0 = { first_page := 65537, size := 4096 } ∧
      (release pt p 268439552).2.1 = []) ∧
    (∀ pt k, ∃ p, allocate (2 + k) midPool 4096 = some (69632, p) ∧
      p.block 0 = { first_page := 17, size := 4096 } ∧
      (release pt p 69632).2.1 = List.range' 17 4079 ∧
      18 ∈ (release pt p 69632).2.1) := by
  constructor
  · intro pt k
    rw [allocate_fuel _ _ 2 (by decide) k]
    refine ⟨_, rfl, by decide, ?_⟩
    rw [release_independent pt PageTable.sampleState]
    decide
  · intro pt k
    rw [allocate_fuel _ _ 2 (by decide) k]
    refine ⟨_, rfl, by decide, ?_⟩
    have h : ∀ q : VMPool, q.allocated_list_size = 1 → q.block 0 = ⟨17, 4096⟩ →
        (release pt q 69632).2.1 = List.range' 17 4079 := by
      intro q hs hb
      have := releaseLoop_match q (69632 / PAGE_SIZE) pt 1 0 0 (le_refl _) (by omega)
        (fun j h1 h2 => absurd h2 (by omega)) (by rw [hb]; decide)
      unfold release
      rw [hs, this, hb]
      rfl
    rw [h _ (by decide) (by decide)]
    exact ⟨rfl, by rw [List.mem_range'_1]; omega⟩

/-- C12 (the code at the failing input): in the freshly constructed 256 MB pool at 256 MB,
two calls `allocate 4096` record the descriptors `(65537, 4096)` and `(69633, 4096)`
(pools `largePoolOne`, `largePoolTwo`).
`release` of the first address then leaves `allocated_list_size` at 2 instead of 1, moves
the pointer `allocated_list` one block below the base of the pool, and the list read
through it is the block found there, `(0, 0)`, followed by `(69633, 4096)`.  In general
`remove_allocated_at` never changes `allocated_list_size` and always decrements
`allocated_list`; only when no descriptor matches is the pool left as it was. -/
theorem release_keeps_descriptor_count :
    (∀ pt k, allocate (2 + k) largePool 4096 = some (268439552, largePoolOne) ∧
      allocate (3 + k) largePoolOne 4096 = some (285216768, largePoolTwo) ∧
      largePoolTwo.allocated_list_size = 2 ∧ largePoolTwo.allocated_list = 0 ∧
      largePoolTwo.block 0 = { first_page := 65537, size := 4096 } ∧
      largePoolTwo.block 1 = { first_page := 69633, size := 4096 } ∧
      (release pt largePoolTwo 268439552).2.2.allocated_list_size = 2 ∧
      (release pt largePoolTwo 268439552).2.2.allocated_list = -1 ∧
      (release pt largePoolTwo 268439552).2.2.block 0 = { first_page := 0, size := 0 } ∧
      (release pt largePoolTwo 268439552).2.2.block 1 = { first_page := 69633, size := 4096 }) ∧
    (∀ (p : VMPool) (i : Nat),
      (remove_allocated_at p i).allocated_list_size = p.allocated_list_size ∧
      (remove_allocated_at p i).allocated_list = p.allocated_list - 1) ∧
    (∀ (pt : PageTable.State) (p : VMPool) (a : Nat),
      (∀ j, j < p.allocated_list_size → (p.block j).first_page ≠ a / PAGE_SIZE) →
      release pt p a = (pt, [], p)) := by
  refine ⟨fun pt k => ?_, fun p i => ⟨rfl, rfl⟩, fun pt p a h => ?_⟩
  · refine ⟨?_, ?_, ?_⟩
    · rw [allocate_fuel _ _ 2 (by decide) k]; rfl
    · rw [allocate_fuel _ _ 3 (by decide) k]; rfl
    · rw [release_independent pt PageTable.sampleState]
      decide
  · exact releaseLoop_no_match p _ pt _ 0 (fun j _ h2 => h j (by omega))

/-- C13 (the code at the failing inputs): in the freshly constructed 256 MB pool at 256 MB,
`find_free_pages 1` returns page 65537 and `allocate 4096` returns its address; after the
`release` of that address, `find_free_pages 1` returns the no-space sentinel 0: the
descriptor count is still 1 and the list now starts one block below the pool, where the
memory reads `(0, 0)`.  When the block below the pool reads `(65537, 8192)` instead
(`stalePool`), the same calls end with `find_free_pages 1` returning page 73729, a later
page than 65537. -/
theorem find_free_pages_after_release :
    (∀ pt k, ∃ p, allocate (2 + k) largePool 4096 = some (268439552, p) ∧
      find_free_pages (2 + k) largePool 1 = some 65537 ∧
      find_free_pages (3 + k) (release pt p 268439552).2.2 1 = some 0) ∧
    (∀ pt k, ∃ p, allocate (2 + k) stalePool 4096 = some (268439552, p) ∧
      find_free_pages (2 + k) stalePool 1 = some 65537 ∧
      find_free_pages (3 + k) (release pt p 268439552).2.2 1 = some 73729) := by
  constructor
  · intro pt k
    rw [allocate_fuel _ _ 2 (by decide) k]
    refine ⟨_, rfl, find_free_pages_fuel _ _ 2 _ (by decide) k, ?_⟩
    apply find_free_pages_fuel _ _ 3 _ _ k
    rw [release_independent pt PageTable.sampleState]
    decide
  · intro pt k
    rw [allocate_fuel _ _ 2 (by decide) k]
    refine ⟨_, rfl, find_free_pages_fuel _ _ 2 _ (by decide) k, ?_⟩
    apply find_free_pages_fuel _ _ 3 _ _ k
    rw [release_independent pt PageTable.sampleState]
    decide

end VMPool

/-! ## Claims about the page table -/

namespace PageTable

theorem and_1023 (x : Nat) : x &&& 1023 = x % 1024 := Nat.and_pow_two_sub_one_eq_mod x 10

theorem and_fffff (x : Nat) : x &&& 1048575 = x % 1048576 := Nat.and_pow_two_sub_one_eq_mod x 20

/-- The address synthesised from the self-map index, a table index and an entry index. -/
theorem entry_addr_eq (pt sub : Nat) (hpt : pt < 1024) (hsub : sub < 1024) :
    (1023 <<< 22) ||| (pt <<< 12) ||| (sub <<< 2) = 4290772992 + 4096 * pt + 4 * sub := by
  have h1 : (1023 <<< 22) ||| (pt <<< 12) = 4290772992 + 4096 * pt := by
    have := Nat.mul_add_lt_is_or (i := 22) (b := pt <<< 12)
      (by rw [Nat.shiftLeft_eq]; norm_num; omega) 1023
    rw [Nat.shiftLeft_eq, Nat.shiftLeft_eq] at *
    rw [show 1023 * 2 ^ 22 = 2 ^ 22 * 1023 by norm_num, ← this]
    norm_num; omega
  rw [h1]
  have := Nat.mul_add_lt_is_or (i := 12) (b := sub <<< 2)
    (by rw [Nat.shiftLeft_eq]; norm_num; omega) (1047552 + pt)
  rw [Nat.shiftLeft_eq] at *
  rw [show 4290772992 + 4096 * pt = 2 ^ 12 * (1047552 + pt) by norm_num; omega, ← this]
  norm_num; omega

theorem leafEntryAddr_eq (p : Nat) (hp : p < 1048576) :
    leafEntryAddr p = 4290772992 + 4 * p := by
  unfold leafEntryAddr
  rw [and_1023, and_1023, Nat.shiftRight_eq_div_pow,
    entry_addr_eq _ _ (Nat.mod_lt _ (by norm_num)) (Nat.mod_lt _ (by norm_num))]
  norm_num; omega

theorem directorySlotAddr_eq (i : Nat) (hi : i < 1024) :
    directorySlotAddr i = 4294963200 + 4 * i := by
  unfold directorySlotAddr
  rw [entry_addr_eq _ _ (by norm_num) hi]

theorem pageOf_lt (a : Nat) : pageOf a < 1048576 := by
  unfold pageOf
  rw [and_fffff]
  exact Nat.mod_lt _ (by norm_num)

/-- Clearing bit 0 of a 32-bit word with the mask `0xFFFFFFFE`. -/
theorem and_not_one (e : Nat) (he : e < 4294967296) : e &&& 4294967294 = e - e % 2 := by
  have h1 : (e &&& 4294967294) / 2 = e / 2 := by
    rw [Nat.and_div_two]
    have := Nat.and_pow_two_sub_one_eq_mod (e / 2) 31
    norm_num at this ⊢
    rw [this]
    apply Nat.mod_eq_of_lt
    omega
  have h2 : (e &&& 4294967294) % 2 = 0 := by
    rw [← Nat.and_one_is_mod, Nat.and_assoc]
    have h0 : (4294967294 : Nat) &&& 1 = 0 := by decide
    rw [h0, Nat.and_zero]
  omega

theorem anyLegitimate_iff (l : List VMPool) (a : Nat) :
    anyLegitimate l a = true ↔ ∃ pool, pool ∈ l ∧ pool.is_legitimate a = true := by
  induction l with
  | nil => simp [anyLegitimate]
  | cons q rest ih =>
    rw [anyLegitimate]
    by_cases hq : q.is_legitimate a = true
    · rw [if_pos hq]
      simp only [true_iff]
      exact ⟨q, List.mem_cons_self _ _, hq⟩
    · rw [if_neg hq, ih]
      constructor
      · rintro ⟨pool, hm, hl⟩
        exact ⟨pool, List.mem_cons_of_mem _ hm, hl⟩
      · rintro ⟨pool, hm, hl⟩
        rcases List.mem_cons.1 hm with h | h
        · rw [h] at hl; exact absurd hl hq
        · exact ⟨pool, h, hl⟩

theorem register_pool_eq_append (l : List VMPool) (pool : VMPool) :
    register_pool l pool = l ++ [pool] := by
  induction l with
  | nil => rfl
  | cons q rest ih => rw [register_pool, ih, List.cons_append]

/-- The flag `address_valid` of `handle_fault` is true exactly on valid addresses. -/
theorem address_valid_iff (st : State) (a : Nat) :
    (if (a >>> 22) &&& 0x3ff = 0x3ff then true else anyLegitimate st.first_vm_pool a) = true ↔
      validAddress st a := by
  unfold validAddress
  by_cases htop : (a >>> 22) &&& 0x3ff = 0x3ff
  · rw [if_pos htop]
    simp only [true_iff]
    exact Or.inr htop
  · rw [if_neg htop, anyLegitimate_iff]
    constructor
    · intro h; exact Or.inl h
    · rintro (h | h)
      · exact h
      · exact absurd h htop

/-- C14: `handle_fault` ends in its endless loop, with the state exactly as it was on entry
(no frame allocated from any pool, no directory or table entry written), if and only if
the fault address is not valid; it returns if and only if the address is valid.  Valid
means: some pool registered with the page table (`register_pool` appends to the list that
is walked) answers `is_legitimate` with true, or bits 31..22 of the address equal the
self-map index `0x3FF`. -/
theorem handle_fault_validity (st : State) (a : Nat) :
    (handle_fault st a = Outcome.halted st ↔ ¬ validAddress st a) ∧
    ((∃ st', handle_fault st a = Outcome.returned st') ↔ validAddress st a) ∧
    (∀ st', handle_fault st a = Outcome.halted st' → st' = st) ∧
    (∀ (l : List VMPool) (pool q : VMPool), q ∈ register_pool l pool ↔ q ∈ l ∨ q = pool) := by
  have hv := address_valid_iff st a
  have hhalt : ¬ validAddress st a → handle_fault st a = Outcome.halted st := by
    intro hn
    have hf : (if (a >>> 22) &&& 0x3ff = 0x3ff then true
        else anyLegitimate st.first_vm_pool a) = false := by
      cases h : (if (a >>> 22) &&& 0x3ff = 0x3ff then true
        else anyLegitimate st.first_vm_pool a) with
      | false => rfl
      | true => exact absurd (hv.1 h) hn
    simp only [handle_fault, hf, if_true]
  have hret : validAddress st a → ∃ st', handle_fault st a = Outcome.returned st' := by
    intro hval
    have ht := hv.2 hval
    unfold handle_fault
    simp only [ht, Bool.true_eq_false, if_false]
    exact ⟨_, rfl⟩
  refine ⟨⟨?_, hhalt⟩, ⟨?_, hret⟩, ?_, ?_⟩
  · intro h hval
    obtain ⟨st', h'⟩ := hret hval
    rw [h] at h'
    exact Outcome.noConfusion h'
  · rintro ⟨st', h⟩
    by_contra hn
    rw [hhalt hn] at h
    exact Outcome.noConfusion h
  · intro st' h
    by_cases hval : validAddress st a
    · obtain ⟨st'', h'⟩ := hret hval
      rw [h'] at h
      exact Outcome.noConfusion h
    · rw [hhalt hval] at h
      exact (Outcome.halted.inj h).symm
  · intro l pool q
    rw [register_pool_eq_append, List.mem_append, List.mem_singleton]

theorem callGetFrames_some (pools : List ContFramePool) (k n : Nat) (p : ContFramePool)
    (h : pools[k]? = some p) :
    callGetFrames pools k n =
      ((ContFramePool.get_frames p n).1, pools.set k (ContFramePool.get_frames p n).2) := by
  simp only [callGetFrames, h]

theorem top_index_eq (a : Nat) : (a >>> 22) &&& 0x3ff = pageOf a >>> 10 := by
  unfold pageOf
  rw [and_1023, and_fffff]
  simp only [Nat.shiftRight_eq_div_pow]
  norm_num; omega

/-- What `handle_fault` does for a valid address whose directory slot has the present bit. -/
theorem handle_fault_present (st : State) (a : Nat) (hvalid : validAddress st a)
    (hpresent : st.mem (directorySlotAddr (pageOf a >>> 10)) &&& 1 ≠ 0) :
    handle_fault st a = Outcome.returned (st.update
      (storeWord st.mem (leafEntryAddr (pageOf a))
        (u32 ((callGetFrames st.pools st.process_mem_pool 1).1 * PAGE_SIZE) ||| 3))
      (callGetFrames st.pools st.process_mem_pool 1).2) := by
  have ht := (address_valid_iff st a).2 hvalid
  have hidx : (pageOf a >>> 10) &&& 0x3ff = pageOf a >>> 10 := by
    have := pageOf_lt a
    rw [and_1023, Nat.shiftRight_eq_div_pow]
    apply Nat.mod_eq_of_lt
    norm_num; omega
  unfold directorySlotAddr pageOf at hpresent
  unfold handle_fault
  simp only [ht, Bool.true_eq_false, if_false, if_neg hpresent]
  unfold leafEntryAddr State.update
  rw [hidx]
  rfl

/-- C15 (as stated, refuted): in `sampleState` the fault address `0xFFC00000` is valid
(its top-level index is `0x3FF`), the covering table is present (the self-map slot reads
`0x1003`) and the process pool has free frames; `handle_fault` returns, and directory slot
0 no longer reads `0x2003` but the new frame 1024 with flags 3: the leaf entry of a page of
the self-map window is a directory slot. -/
theorem handle_fault_rewrites_directory_slot :
    validAddress sampleState 4290772992 ∧
    sampleState.mem (directorySlotAddr (pageOf 4290772992 >>> 10)) &&& 1 ≠ 0 ∧
    sampleState.pools[sampleState.process_mem_pool]? = some ContFramePool.otherPool ∧
    ContFramePool.otherPool.hasFreeRun 1 ∧
    ∃ st', handle_fault sampleState 4290772992 = Outcome.returned st' ∧
      sampleState.mem (directorySlotAddr 0) = 8195 ∧
      st'.mem (directorySlotAddr 0) = 1024 * 4096 + 3 := by
  refine ⟨Or.inr (by decide), by decide, rfl,
    ⟨0, by decide, by unfold ContFramePool.freeRun; decide⟩, _, rfl, by decide, by decide⟩

/-- C15 (amended): for a valid fault address whose directory slot has the present bit, and
a process pool inside the first `2^20` frames with at least one `FREE` frame,
`handle_fault` returns after one `get_frames 1` on the process pool, which turns exactly
one frame `f` from `FREE` to `HEAD_OF_SEQUENCE`, and sets the leaf entry of the faulting
page to `f * 4096 | 3`.  Every other word of memory is unchanged: the leaf entry of every
other page and, when the top-level index of the address is not `0x3FF`, every directory
slot.  (For an address inside the self-map window the leaf entry written is itself the
directory slot selected by bits 21..12.) -/
theorem handle_fault_maps_page (st : State) (a : Nat) (pool : ContFramePool)
    (hvalid : validAddress st a)
    (hpresent : st.mem (directorySlotAddr (pageOf a >>> 10)) &&& 1 ≠ 0)
    (hpool : st.pools[st.process_mem_pool]? = some pool)
    (hrange : pool.base_frame_num + pool.num_frames ≤ 1048576)
    (hfree : pool.hasFreeRun 1) :
    ∃ s p1 st', ContFramePool.get_frames pool 1 = (pool.base_frame_num + s, p1) ∧
      handle_fault st a = Outcome.returned st' ∧
      st'.pools = st.pools.set st.process_mem_pool p1 ∧
      pool.frameState s = FREE ∧ p1.frameState s = HEAD_OF_SEQUENCE ∧
      (∀ j, j ≠ s → p1.frameState j = pool.frameState j) ∧
      st'.mem (leafEntryAddr (pageOf a)) = (pool.base_frame_num + s) * 4096 ||| 3 ∧
      (∀ addr, addr ≠ leafEntryAddr (pageOf a) → st'.mem addr = st.mem addr) ∧
      (∀ q, q < 1048576 → q ≠ pageOf a → st'.mem (leafEntryAddr q) = st.mem (leafEntryAddr q)) ∧
      ((a >>> 22) &&& 0x3ff ≠ 0x3ff →
        ∀ i, i < 1024 → st'.mem (directorySlotAddr i) = st.mem (directorySlotAddr i)) := by
  have hwf : pool.wf := by unfold ContFramePool.wf; omega
  obtain ⟨s, hfit, hfr, _, hget⟩ := ContFramePool.get_frames_success pool 1 hwf (le_refl _) hfree
  have hcall := callGetFrames_some st.pools st.process_mem_pool 1 pool hpool
  rw [hget] at hcall
  have hfault := handle_fault_present st a hvalid hpresent
  rw [hcall] at hfault
  simp only at hfault
  have hu : u32 ((pool.base_frame_num + s) * PAGE_SIZE) = (pool.base_frame_num + s) * 4096 := by
    unfold PAGE_SIZE
    apply u32_of_lt
    omega
  rw [hu] at hfault
  have hother : ∀ addr, addr ≠ leafEntryAddr (pageOf a) →
      storeWord st.mem (leafEntryAddr (pageOf a))
        ((pool.base_frame_num + s) * 4096 ||| 3) addr = st.mem addr := by
    intro addr h
    unfold storeWord
    rw [if_neg h]
  have hpage := pageOf_lt a
  refine ⟨s, ContFramePool.marked pool s 1, _, hget, hfault, rfl, ?_, ?_, ?_, ?_, hother, ?_, ?_⟩
  · have := hfr 0 (by omega)
    simpa using this
  · rw [ContFramePool.frameState_marked, if_pos (by omega), if_pos rfl]
  · intro j hj
    rw [ContFramePool.frameState_marked, if_neg (by omega)]
  · show storeWord _ _ _ _ = _
    unfold storeWord
    rw [if_pos rfl]
  · intro q hq hne
    apply hother
    rw [leafEntryAddr_eq q hq, leafEntryAddr_eq _ hpage]
    omega
  · intro htop i hi
    apply hother
    rw [directorySlotAddr_eq i hi, leafEntryAddr_eq _ hpage]
    rw [top_index_eq, Nat.shiftRight_eq_div_pow] at htop
    norm_num at htop
    omega

theorem handle_fault_maps_page_witness :
    validAddress sampleState 65536 ∧
    sampleState.mem (directorySlotAddr (pageOf 65536 >>> 10)) &&& 1 ≠ 0 ∧
    sampleState.pools[sampleState.process_mem_pool]? = some ContFramePool.otherPool ∧
    ContFramePool.otherPool.base_frame_num + ContFramePool.otherPool.num_frames ≤ 1048576 ∧
    ContFramePool.otherPool.hasFreeRun 1 ∧
    ∃ s p1 st', ContFramePool.get_frames ContFramePool.otherPool 1
        = (ContFramePool.otherPool.base_frame_num + s, p1) ∧
      handle_fault sampleState 65536 = Outcome.returned st' ∧
      st'.pools = sampleState.pools.set sampleState.process_mem_pool p1 ∧
      ContFramePool.otherPool.frameState s = FREE ∧ p1.frameState s = HEAD_OF_SEQUENCE ∧
      (∀ j, j ≠ s → p1.frameState j = ContFramePool.otherPool.frameState j) ∧
      st'.mem (leafEntryAddr (pageOf 65536))
        = (ContFramePool.otherPool.base_frame_num + s) * 4096 ||| 3 ∧
      (∀ addr, addr ≠ leafEntryAddr (pageOf 65536) → st'.mem addr = sampleState.mem addr) ∧
      (∀ q, q < 1048576 → q ≠ pageOf 65536 →
        st'.mem (leafEntryAddr q) = sampleState.mem (leafEntryAddr q)) ∧
      ((65536 >>> 22) &&& 0x3ff ≠ 0x3ff →
        ∀ i, i < 1024 → st'.mem (directorySlotAddr i) = sampleState.mem (directorySlotAddr i)) :=
  ⟨Or.inl ⟨VMPool.midPool, List.Mem.head _, by decide⟩, by decide, rfl, by decide,
    ⟨0, by decide, by unfold ContFramePool.freeRun; decide⟩,
    handle_fault_maps_page sampleState 65536 ContFramePool.otherPool
      (Or.inl ⟨VMPool.midPool, List.Mem.head _, by decide⟩) (by decide) rfl (by decide)
      ⟨0, by decide, by unfold ContFramePool.freeRun; decide⟩⟩

/-- C16: for a page number `p < 2^20` whose leaf entry holds the 32-bit word `e`,
`free_page p` leaves the registry of frame pools as the global `release_frames (e / 4096)`
leaves it, and replaces the entry by `e` with bit 0 cleared: the frame bits
(`e / 4096`) and the writable bit stay; the leaf entry of every other page, and every
other word of memory, is unchanged. -/
theorem free_page_clears_present (st : State) (p : Nat) (hp : p < 1048576)
    (he : st.mem (leafEntryAddr p) < 4294967296) :
    (free_page st p).pools =
      ContFramePool.release_frames st.pools (st.mem (leafEntryAddr p) / 4096) ∧
    (free_page st p).mem (leafEntryAddr p) =
      st.mem (leafEntryAddr p) - st.mem (leafEntryAddr p) % 2 ∧
    (free_page st p).mem (leafEntryAddr p) % 2 = 0 ∧
    (free_page st p).mem (leafEntryAddr p) / 2 % 2 = st.mem (leafEntryAddr p) / 2 % 2 ∧
    (free_page st p).mem (leafEntryAddr p) / 4096 = st.mem (leafEntryAddr p) / 4096 ∧
    (∀ q, q < 1048576 → q ≠ p →
      (free_page st p).mem (leafEntryAddr q) = st.mem (leafEntryAddr q)) ∧
    (∀ a, a ≠ leafEntryAddr p → (free_page st p).mem a = st.mem a) := by
  have hnew : (free_page st p).mem (leafEntryAddr p) =
      st.mem (leafEntryAddr p) - st.mem (leafEntryAddr p) % 2 := by
    rw [← and_not_one _ he]
    simp only [free_page, leafEntryAddr, storeWord, if_true]
  have hother : ∀ a, a ≠ leafEntryAddr p → (free_page st p).mem a = st.mem a := by
    intro a ha
    unfold leafEntryAddr at ha
    simp only [free_page, storeWord]
    rw [if_neg ha]
  refine ⟨rfl, hnew, ?_, ?_, ?_, ?_, hother⟩
  · rw [hnew]; omega
  · rw [hnew]; omega
  · rw [hnew]; omega
  · intro q hq hqp
    apply hother
    rw [leafEntryAddr_eq q hq, leafEntryAddr_eq p hp]
    omega

theorem free_page_clears_present_witness :
    (3 : Nat) < 1048576 ∧ sampleState.mem (leafEntryAddr 3) < 4294967296 ∧
    (free_page sampleState 3).pools =
      ContFramePool.release_frames sampleState.pools (sampleState.mem (leafEntryAddr 3) / 4096) ∧
    (free_page sampleState 3).mem (leafEntryAddr 3) =
      sampleState.mem (leafEntryAddr 3) - sampleState.mem (leafEntryAddr 3) % 2 ∧
    (free_page sampleState 3).mem (leafEntryAddr 3) % 2 = 0 ∧
    (free_page sampleState 3).mem (leafEntryAddr 3) / 2 % 2
      = sampleState.mem (leafEntryAddr 3) / 2 % 2 ∧
    (free_page sampleState 3).mem (leafEntryAddr 3) / 4096
      = sampleState.mem (leafEntryAddr 3) / 4096 ∧
    (∀ q, q < 1048576 → q ≠ 3 →
      (free_page sampleState 3).mem (leafEntryAddr q) = sampleState.mem (leafEntryAddr q)) ∧
    (∀ a, a ≠ leafEntryAddr 3 → (free_page sampleState 3).mem a = sampleState.mem a) :=
  ⟨by decide, by decide, free_page_clears_present sampleState 3 (by decide) (by decide)⟩

theorem fillTable_other (tp : Nat) : ∀ count i mem a,
    (∀ j, i ≤ j → j < i + count → a ≠ u32 (tp + 4 * j)) →
    fillTable tp count i mem a = mem a := by
  intro count
  induction count with
  | zero => intro i mem a _; rfl
  | succ count ih =>
    intro i mem a h
    rw [fillTable, ih _ _ _ (fun j h1 h2 => h j (by omega) (by omega))]
    unfold storeWord
    rw [if_neg (h i (le_refl _) (by omega))]

theorem fillTable_at (tp : Nat) : ∀ count i mem j, tp + 4 * (i + count) ≤ 4294967296 →
    i ≤ j → j < i + count →
    fillTable tp count i mem (tp + 4 * j) = u32 (j * 4096) ||| 3 := by
  intro count
  induction count with
  | zero => intro i mem j _ h1 h2; omega
  | succ count ih =>
    intro i mem j hb h1 h2
    rw [fillTable]
    by_cases hji : j = i
    · subst hji
      rw [fillTable_other]
      · unfold storeWord
        rw [if_pos (u32_of_lt _ (by omega)).symm]
      · intro k hk1 hk2
        rw [u32_of_lt _ (by omega)]
        omega
    · exact ih _ _ _ (by omega) (by omega) (by omega)

theorem fillDirectory_other (pd : Nat) : ∀ count i mem a,
    (∀ j, i ≤ j → j < i + count → a ≠ u32 (pd + 4 * j)) →
    fillDirectory pd count i mem a = mem a := by
  intro count
  induction count with
  | zero => intro i mem a _; rfl
  | succ count ih =>
    intro i mem a h
    rw [fillDirectory, ih _ _ _ (fun j h1 h2 => h j (by omega) (by omega))]
    unfold storeWord
    rw [if_neg (h i (le_refl _) (by omega))]

theorem fillDirectory_at (pd : Nat) : ∀ count i mem j, pd + 4 * (i + count) ≤ 4294967296 →
    i ≤ j → j < i + count → fillDirectory pd count i mem (pd + 4 * j) = 2 := by
  intro count
  induction count with
  | zero => intro i mem j _ h1 h2; omega
  | succ count ih =>
    intro i mem j hb h1 h2
    rw [fillDirectory]
    by_cases hji : j = i
    · subst hji
      rw [fillDirectory_other]
      · unfold storeWord
        rw [if_pos (u32_of_lt _ (by omega)).symm]
      · intro k hk1 hk2
        rw [u32_of_lt _ (by omega)]
        omega
    · exact ih _ _ _ (by omega) (by omega) (by omega)

/-- The address of a frame (`frame * PAGE_SIZE` in 32 bits) is page-aligned and leaves room
for the 1024 words of a table. -/
theorem frame_address_bounds (f : Nat) :
    u32 (f * PAGE_SIZE) % 4096 = 0 ∧ u32 (f * PAGE_SIZE) + 4096 ≤ 4294967296 := by
  unfold u32 PAGE_SIZE
  omega

theorem storeWord_same (mem : Nat → Nat) (addr value : Nat) :
    storeWord mem addr value addr = value := by
  unfold storeWord
  rw [if_pos rfl]

theorem storeWord_other (mem : Nat → Nat) (addr value a : Nat) (h : a ≠ addr) :
    storeWord mem addr value a = mem a := by
  unfold storeWord
  rw [if_neg h]

/-- C17: when the kernel pool lies inside the first `2^20` frames and both `get_frames 1`
calls of the constructor succeed, returning the frames `d` (directory) and `t` (initial
table), then `d ≠ t`, directory slot 0 holds the address `t * 4096` of the initial table
with flags 3 (present, writable), and for every `i < 1024` entry `i` of that table equals
`i * 4096 | 3`: page `i` is mapped to frame `i`, present and writable. -/
theorem construct_identity_maps (st : State) (kp : ContFramePool)
    (hpool : st.pools[st.kernel_mem_pool]? = some kp)
    (hrange : kp.base_frame_num + kp.num_frames ≤ 1048576)
    (hfirst : kp.hasFreeRun 1)
    (hsecond : (ContFramePool.get_frames kp 1).2.hasFreeRun 1) :
    ∃ d t p1 p2, ContFramePool.get_frames kp 1 = (d, p1) ∧
      ContFramePool.get_frames p1 1 = (t, p2) ∧ d ≠ t ∧
      (construct st).page_directory = d * 4096 ∧
      (construct st).pools = (st.pools.set st.kernel_mem_pool p1).set st.kernel_mem_pool p2 ∧
      (construct st).mem (d * 4096 + 4 * 0) = t * 4096 ||| 3 ∧
      ∀ i, i < 1024 → (construct st).mem (t * 4096 + 4 * i) = i * 4096 ||| 3 := by
  have hwf : kp.wf := by unfold ContFramePool.wf; omega
  obtain ⟨s1, hfit1, _, _, hget1⟩ :=
    ContFramePool.get_frames_success kp 1 hwf (le_refl _) hfirst
  rw [hget1] at hsecond
  have hwf1 : (ContFramePool.marked kp s1 1).wf := hwf
  obtain ⟨s2, hfit2, hfr2, _, hget2⟩ :=
    ContFramePool.get_frames_success (ContFramePool.marked kp s1 1) 1 hwf1 (le_refl _) hsecond
  have hfit2' : s2 + 1 ≤ kp.num_frames := hfit2
  have hne : s1 ≠ s2 := by
    intro h
    have := hfr2 0 (by omega)
    rw [Nat.add_zero, ← h, ContFramePool.frameState_marked, if_pos (by omega), if_pos rfl] at this
    revert this; decide
  have hlen : st.kernel_mem_pool < st.pools.length := by
    by_contra hn
    rw [List.getElem?_eq_none (by omega)] at hpool
    exact Option.noConfusion hpool
  have hcall1 := callGetFrames_some st.pools st.kernel_mem_pool 1 kp hpool
  rw [hget1] at hcall1
  have hpool1 : (st.pools.set st.kernel_mem_pool (ContFramePool.marked kp s1 1))[st.kernel_mem_pool]?
      = some (ContFramePool.marked kp s1 1) := by
    rw [List.getElem?_set, if_pos rfl, if_pos hlen]
  have hcall2 := callGetFrames_some _ st.kernel_mem_pool 1 _ hpool1
  rw [hget2] at hcall2
  have hbase1 : (ContFramePool.marked kp s1 1).base_frame_num = kp.base_frame_num := rfl
  rw [hbase1] at hget2 hcall2
  have hd : u32 ((kp.base_frame_num + s1) * PAGE_SIZE) = (kp.base_frame_num + s1) * 4096 := by
    unfold PAGE_SIZE; apply u32_of_lt; omega
  have ht : u32 ((kp.base_frame_num + s2) * PAGE_SIZE) = (kp.base_frame_num + s2) * 4096 := by
    unfold PAGE_SIZE; apply u32_of_lt; omega
  refine ⟨kp.base_frame_num + s1, kp.base_frame_num + s2, _, _, hget1, hget2, by omega, ?_, ?_,
    ?_, ?_⟩
  · simp only [construct, hcall1, hd]
  · simp only [construct, hcall1, hcall2]
  · simp only [construct, hcall1, hcall2, hd, ht]
    rw [storeWord_other _ _ _ _ (by rw [u32_of_lt _ (by omega)]; omega)]
    rw [fillDirectory_other _ _ _ _ _ (by
      intro j h1 h2
      rw [u32_of_lt _ (by omega)]
      omega)]
    rw [fillTable_other _ _ _ _ _ (by
      intro j h1 h2
      rw [u32_of_lt _ (by omega)]
      omega)]
    rw [u32_of_lt _ (by omega), storeWord_same]
  · intro i hi
    simp only [construct, hcall1, hcall2, hd, ht]
    rw [storeWord_other _ _ _ _ (by rw [u32_of_lt _ (by omega)]; omega)]
    rw [fillDirectory_other _ _ _ _ _ (by
      intro j h1 h2
      rw [u32_of_lt _ (by omega)]
      omega)]
    rw [fillTable_at _ _ _ _ i (by omega) (by omega) (by omega)]
    rw [u32_of_lt _ (by omega)]

theorem construct_identity_maps_witness :
    sampleState.pools[sampleState.kernel_mem_pool]? = some ContFramePool.samplePool ∧
    ContFramePool.samplePool.base_frame_num + ContFramePool.samplePool.num_frames ≤ 1048576 ∧
    ContFramePool.samplePool.hasFreeRun 1 ∧
    (ContFramePool.get_frames ContFramePool.samplePool 1).2.hasFreeRun 1 ∧
    ∃ d t p1 p2, ContFramePool.get_frames ContFramePool.samplePool 1 = (d, p1) ∧
      ContFramePool.get_frames p1 1 = (t, p2) ∧ d ≠ t ∧
      (construct sampleState).page_directory = d * 4096 ∧
      (construct sampleState).pools =
        (sampleState.pools.set sampleState.kernel_mem_pool p1).set
          sampleState.kernel_mem_pool p2 ∧
      (construct sampleState).mem (d * 4096 + 4 * 0) = t * 4096 ||| 3 ∧
      ∀ i, i < 1024 → (construct sampleState).mem (t * 4096 + 4 * i) = i * 4096 ||| 3 :=
  ⟨rfl, by decide, ⟨2, by decide, by unfold ContFramePool.freeRun; decide⟩,
    ⟨3, by decide, by unfold ContFramePool.freeRun; decide⟩,
    construct_identity_maps sampleState ContFramePool.samplePool rfl (by decide)
      ⟨2, by decide, by unfold ContFramePool.freeRun; decide⟩
      ⟨3, by decide, by unfold ContFramePool.freeRun; decide⟩⟩

/-- C18: after the constructor, whatever the kernel pool returned, the last directory slot
(index 1023) holds the address of the directory itself with flags 3, and every directory
slot `i` with `1 ≤ i ≤ 1022` holds the placeholder 2. -/
theorem construct_directory_slots (st : State) :
    (construct st).mem ((construct st).page_directory + 4 * 1023) =
      (construct st).page_directory ||| 3 ∧
    ∀ i, 1 ≤ i → i ≤ 1022 → (construct st).mem ((construct st).page_directory + 4 * i) = 2 := by
  obtain ⟨_, hb⟩ := frame_address_bounds (callGetFrames st.pools st.kernel_mem_pool 1).1
  generalize hpd : u32 ((callGetFrames st.pools st.kernel_mem_pool 1).1 * PAGE_SIZE) = pd at hb
  have hpdf : (construct st).page_directory = pd := by
    simp only [construct, hpd]
  rw [hpdf]
  constructor
  · simp only [construct, hpd, storeWord]
    rw [if_pos (u32_of_lt _ (by omega)).symm]
  · intro i h1 h2
    simp only [construct, hpd, storeWord]
    rw [if_neg (by rw [u32_of_lt _ (by omega)]; omega)]
    exact fillDirectory_at pd 1023 1 _ i (by omega) h1 (by omega)

end PageTable

/-! ## Claims about the constructor of the frame allocator -/

namespace ContFramePool

/-- The self-hosted constructor leaves the zero-filled bitmap with the first
`needed_info_frames` frames marked as one allocated run. -/
theorem init_self_hosted (base count ninfo : Nat) (storage : Nat → Nat)
    (hwf : base + count < 4294967296) :
    init base count 0 ninfo storage =
      marked ⟨base, count, zeroLoop (count >>> 2) 0 storage⟩ 0 (needed_info_frames count) := by
  have hneed := needed_info_frames_eq count (by omega)
  have hk : needed_info_frames count < 4294967296 := by
    rw [hneed]; split <;> omega
  have e1 : sub32 base base = 0 := by
    have := sub32_add_left 0 base (by omega)
    simpa using this
  simp only [init, if_true, mark_inaccessible, e1, Nat.zero_add, u32_of_lt _ hk,
    Nat.sub_zero, marked, Bool.false_eq_true, if_false]

/-- C19 (as stated, refuted): the self-hosted allocator over frames 512..519, just
constructed, has one bookkeeping frame, and its state is `HEAD_OF_SEQUENCE`, not
`OFF_LIMITS`: the constructor calls `mark_inaccessible` with the flag `false`. -/
theorem bookkeeping_frame_not_off_limits :
    needed_info_frames 8 = 1 ∧
    (init 512 8 0 0 (fun _ => 255)).frameState 0 = HEAD_OF_SEQUENCE ∧
    ¬ (∀ j, j < needed_info_frames 8 →
        (init 512 8 0 0 (fun _ => 255)).frameState j = OFF_LIMITS) := by
  refine ⟨by decide, by decide, fun h => ?_⟩
  have := h 0 (by decide)
  revert this
  decide

/-- C19 (amended): for every self-hosted allocator (`_info_frame_no = 0`) over
`count ≥ 1` frames with `base + count < 2^32`, whatever the storage held before, right
after construction the first `needed_info_frames count` frames of its range (at least one,
at most `count`) form one allocated run: frame 0 is `HEAD_OF_SEQUENCE`, the others are
`ALLOCATED`; none of them is `FREE`, and none is `OFF_LIMITS`. -/
theorem bookkeeping_frames_allocated (base count ninfo : Nat) (storage : Nat → Nat)
    (hcount : 1 ≤ count) (hwf : base + count < 4294967296) :
    1 ≤ needed_info_frames count ∧ needed_info_frames count ≤ count ∧
    (init base count 0 ninfo storage).frameState 0 = HEAD_OF_SEQUENCE ∧
    (∀ j, 0 < j → j < needed_info_frames count →
      (init base count 0 ninfo storage).frameState j = ALLOCATED) ∧
    (∀ j, j < needed_info_frames count →
      (init base count 0 ninfo storage).frameState j ≠ FREE ∧
      (init base count 0 ninfo storage).frameState j ≠ OFF_LIMITS) := by
  have hneed := needed_info_frames_eq count (by omega)
  have h1 : 1 ≤ needed_info_frames count := by
    rw [hneed]; split <;> omega
  have h2 : needed_info_frames count ≤ count := by
    rw [hneed]; split <;> omega
  rw [init_self_hosted base count ninfo storage hwf]
  refine ⟨h1, h2, ?_, ?_, ?_⟩
  · rw [frameState_marked, if_pos (by omega), if_pos rfl]
  · intro j h0 hj
    rw [frameState_marked, if_pos (by omega), if_neg (by omega)]
  · intro j hj
    rw [frameState_marked, if_pos (by omega)]
    by_cases h : j = 0
    · rw [if_pos h]; decide
    · rw [if_neg h]; decide

theorem bookkeeping_frames_allocated_witness :
    1 ≤ 512 ∧ 512 + 512 < 4294967296 ∧
    1 ≤ needed_info_frames 512 ∧ needed_info_frames 512 ≤ 512 ∧
    (init 512 512 0 0 (fun _ => 255)).frameState 0 = HEAD_OF_SEQUENCE ∧
    (∀ j, 0 < j → j < needed_info_frames 512 →
      (init 512 512 0 0 (fun _ => 255)).frameState j = ALLOCATED) ∧
    (∀ j, j < needed_info_frames 512 →
      (init 512 512 0 0 (fun _ => 255)).frameState j ≠ FREE ∧
      (init 512 512 0 0 (fun _ => 255)).frameState j ≠ OFF_LIMITS) :=
  ⟨by decide, by decide,
    bookkeeping_frames_allocated 512 512 0 (fun _ => 255) (by decide) (by decide)⟩

/-- C20 (the code at the failing input): the allocator over the six frames 512..517 with
external bookkeeping (info frame 600), constructed over storage that held `0xFF` bytes,
has its frames 4 and 5 in state `HEAD_OF_SEQUENCE`, not `FREE`: the constructor zeroes
`6 >> 2 = 1` byte, which holds the states of frames 0..3 only.  The same happens to the
self-hosted allocator over these frames, whose only bookkeeping frame is frame 0, and an
allocator over three frames has no byte zeroed at all. -/
theorem constructor_leaves_tail_frames :
    (init 512 6 600 1 (fun _ => 255)).frameState 4 = HEAD_OF_SEQUENCE ∧
    (init 512 6 600 1 (fun _ => 255)).frameState 5 = HEAD_OF_SEQUENCE ∧
    (∀ j, j < 4 → (init 512 6 600 1 (fun _ => 255)).frameState j = FREE) ∧
    needed_info_frames 6 = 1 ∧
    (init 512 6 0 0 (fun _ => 255)).frameState 4 = HEAD_OF_SEQUENCE ∧
    (init 512 6 0 0 (fun _ => 255)).frameState 5 = HEAD_OF_SEQUENCE ∧
    (init 512 3 600 1 (fun _ => 255)).frameState 0 = HEAD_OF_SEQUENCE := by
  decide

end ContFramePool

namespace ContFramePool

/-- The loop of `release_frame` frees a block `[i, i + m)` of slots that read `ALLOCATED`
and stops either at the end of its iterations or at the first slot that reads something else. -/
theorem releaseLoop_char : ∀ count i mem, ∃ m, m ≤ count ∧
    (∀ j, j < m → readState mem (i + j) = ALLOCATED) ∧
    (m = count ∨ readState mem (i + m) ≠ ALLOCATED) ∧
    ∀ j, readState (releaseLoop count i mem) j =
      if i ≤ j ∧ j < i + m then FREE else readState mem j := by
  intro count
  induction count with
  | zero =>
    intro i mem
    refine ⟨0, le_refl _, fun j hj => absurd hj (by omega), Or.inl rfl, fun j => ?_⟩
    rw [releaseLoop, if_neg (by omega)]
  | succ count ih =>
    intro i mem
    by_cases ha : readState mem i = ALLOCATED
    · obtain ⟨m, hm, hrun, hstop, hread⟩ := ih (i + 1) (writeState mem i FREE)
      have ho : ∀ k, i + 1 ≤ k → readState (writeState mem i FREE) k = readState mem k :=
        fun k hk => readState_writeState_other _ _ _ _ (by decide) (by omega)
      refine ⟨m + 1, by omega, ?_, ?_, ?_⟩
      · intro j hj
        cases j with
        | zero => exact ha
        | succ j =>
          have := hrun j (by omega)
          rw [ho _ (by omega)] at this
          rw [show i + (j + 1) = i + 1 + j by omega]
          exact this
      · rcases hstop with h | h
        · left; omega
        · right
          rw [ho _ (by omega)] at h
          rw [show i + (m + 1) = i + 1 + m by omega]
          exact h
      · intro j
        rw [releaseLoop, if_pos ha, hread]
        by_cases hji : j = i
        · subst hji
          rw [if_neg (by omega), if_pos (by omega)]
          exact readState_writeState_same _ _ _ (by decide)
        · by_cases hin : i + 1 ≤ j ∧ j < i + 1 + m
          · rw [if_pos hin, if_pos (by omega)]
          · rw [if_neg hin, if_neg (by omega)]
            exact readState_writeState_other _ _ _ _ (by decide) (fun h => hji h.symm)
    · refine ⟨0, by omega, fun j hj => absurd hj (by omega), Or.inr (by simpa using ha),
        fun j => ?_⟩
      rw [releaseLoop, if_neg ha, if_neg (by omega)]

/-- The states after `release_frame` of a managed frame that is `HEAD_OF_SEQUENCE`: a block
`[i, i + m)` with `m ≥ 1` is `FREE`, every other slot is as before; the block ends at the
bound `base_frame_num + num_frames - i` of the loop or before a slot that was not `ALLOCATED`. -/
theorem release_frame_head (p : ContFramePool) (i : Nat) (hwf : p.wf) (hi : i < p.num_frames)
    (hhead : p.frameState i = HEAD_OF_SEQUENCE) :
    ∃ m, 1 ≤ m ∧ m ≤ p.base_frame_num + p.num_frames - i ∧
      (∀ j, 0 < j → j < m → p.frameState (i + j) = ALLOCATED) ∧
      (m = p.base_frame_num + p.num_frames - i ∨ p.frameState (i + m) ≠ ALLOCATED) ∧
      (release_frame p (p.base_frame_num + i)).base_frame_num = p.base_frame_num ∧
      (release_frame p (p.base_frame_num + i)).num_frames = p.num_frames ∧
      ∀ j, (release_frame p (p.base_frame_num + i)).frameState j =
        if i ≤ j ∧ j < i + m then FREE else p.frameState j := by
  unfold wf at hwf
  have e2 : sub32 (p.base_frame_num + i) p.base_frame_num = i := by
    rw [Nat.add_comm]; exact sub32_add_left _ _ (by omega)
  have e3 : u32 (p.base_frame_num + p.num_frames) = p.base_frame_num + p.num_frames :=
    u32_of_lt _ hwf
  have hhead' : readState p.managementHead i = HEAD_OF_SEQUENCE := hhead
  obtain ⟨m, hm, hrun, hstop, hread⟩ := releaseLoop_char
    (p.base_frame_num + p.num_frames - i) i (writeState p.managementHead i ALLOCATED)
  have hmem1 : ∀ j, j ≠ i →
      readState (writeState p.managementHead i ALLOCATED) j = p.frameState j :=
    fun j hj => readState_writeState_other _ _ _ _ (by decide) (fun h => hj h.symm)
  have hm1 : 1 ≤ m := by
    rcases hstop with h | h
    · omega
    · by_contra h0
      have : m = 0 := by omega
      rw [this, Nat.add_zero, readState_writeState_same _ _ _ (by decide)] at h
      exact h rfl
  refine ⟨m, hm1, hm, ?_, ?_, ?_, ?_, ?_⟩
  · intro j h0 hj
    have := hrun j hj
    rw [hmem1 _ (by omega)] at this
    exact this
  · rcases hstop with h | h
    · exact Or.inl h
    · right
      rw [hmem1 _ (by omega)] at h
      exact h
  · simp only [release_frame, e2, hhead', if_true]
  · simp only [release_frame, e2, hhead', if_true]
  · intro j
    have hrel : (release_frame p (p.base_frame_num + i)).frameState j =
        readState (releaseLoop (p.base_frame_num + p.num_frames - i) i
          (writeState p.managementHead i ALLOCATED)) j := by
      simp only [release_frame, e2, e3, hhead', if_true, frameState]
    rw [hrel, hread]
    by_cases hin : i ≤ j ∧ j < i + m
    · rw [if_pos hin, if_pos hin]
    · rw [if_neg hin, if_neg hin]
      exact hmem1 j (by omega)

theorem release_frame_not_head (p : ContFramePool) (i : Nat) (hwf : p.wf)
    (hi : i < p.num_frames) (hhead : p.frameState i ≠ HEAD_OF_SEQUENCE) :
    release_frame p (p.base_frame_num + i) = p := by
  unfold wf at hwf
  have e2 : sub32 (p.base_frame_num + i) p.base_frame_num = i := by
    rw [Nat.add_comm]; exact sub32_add_left _ _ (by omega)
  have hhead' : ¬ readState p.managementHead i = HEAD_OF_SEQUENCE := hhead
  simp only [release_frame, e2, hhead', if_false]

/-- C21: in a well-formed allocator, `release_frame` on a managed frame whose state is not
`HEAD_OF_SEQUENCE` (so `FREE`, `ALLOCATED` or `OFF_LIMITS`) returns the allocator as it
was, bitmap storage included; after `release_frame` on any managed frame that frame is not
`HEAD_OF_SEQUENCE`, and so releasing the same frame a second time changes nothing more. -/
theorem release_frame_idempotent (p : ContFramePool) (i : Nat) (hwf : p.wf)
    (hi : i < p.num_frames) :
    (p.frameState i ≠ HEAD_OF_SEQUENCE → release_frame p (p.base_frame_num + i) = p) ∧
    (p.frameState i = FREE ∨ p.frameState i = ALLOCATED ∨ p.frameState i = OFF_LIMITS →
      release_frame p (p.base_frame_num + i) = p) ∧
    (release_frame p (p.base_frame_num + i)).frameState i ≠ HEAD_OF_SEQUENCE ∧
    release_frame (release_frame p (p.base_frame_num + i)) (p.base_frame_num + i) =
      release_frame p (p.base_frame_num + i) := by
  have hnot := release_frame_not_head p i hwf hi
  have hafter : (release_frame p (p.base_frame_num + i)).frameState i ≠ HEAD_OF_SEQUENCE := by
    by_cases hh : p.frameState i = HEAD_OF_SEQUENCE
    · obtain ⟨m, hm1, _, _, _, _, _, hread⟩ := release_frame_head p i hwf hi hh
      rw [hread, if_pos (by omega)]
      decide
    · rw [hnot hh]; exact hh
  refine ⟨hnot, ?_, hafter, ?_⟩
  · intro h
    apply hnot
    rcases h with h | h | h <;> rw [h] <;> decide
  · by_cases hh : p.frameState i = HEAD_OF_SEQUENCE
    · obtain ⟨m, _, _, _, _, hb, hn, _⟩ := release_frame_head p i hwf hi hh
      have hwf' : (release_frame p (p.base_frame_num + i)).wf := by
        unfold wf; rw [hb, hn]; exact hwf
      have := release_frame_not_head (release_frame p (p.base_frame_num + i)) i hwf'
        (by rw [hn]; exact hi) hafter
      rw [hb] at this
      exact this
    · rw [hnot hh, hnot hh]

theorem release_frame_idempotent_witness :
    samplePool.wf ∧ 0 < samplePool.num_frames ∧
    (samplePool.frameState 0 ≠ HEAD_OF_SEQUENCE →
      release_frame samplePool (samplePool.base_frame_num + 0) = samplePool) ∧
    (samplePool.frameState 0 = FREE ∨ samplePool.frameState 0 = ALLOCATED ∨
        samplePool.frameState 0 = OFF_LIMITS →
      release_frame samplePool (samplePool.base_frame_num + 0) = samplePool) ∧
    (release_frame samplePool (samplePool.base_frame_num + 0)).frameState 0
      ≠ HEAD_OF_SEQUENCE ∧
    release_frame (release_frame samplePool (samplePool.base_frame_num + 0))
        (samplePool.base_frame_num + 0) =
      release_frame samplePool (samplePool.base_frame_num + 0) :=
  ⟨by decide, by decide, release_frame_idempotent samplePool 0 (by decide) (by decide)⟩

/-- C22: for every 32-bit frame count `n`, `needed_info_frames n` is
`⌈n / (4 * FRAME_SIZE)⌉ = ⌈n / 16384⌉`, that is `(n + 16383) / 16384`, the least `k` with
`n ≤ 16384 * k`; it is monotonically non-decreasing in `n`, and
`needed_info_frames n * 4 * FRAME_SIZE ≥ n`. -/
theorem needed_info_frames_ceil (n m : Nat) (hn : n < 4294967296) (hm : m < 4294967296)
    (hnm : n ≤ m) :
    needed_info_frames n = (n + (4 * FRAME_SIZE - 1)) / (4 * FRAME_SIZE) ∧
    needed_info_frames n = (n + 16383) / 16384 ∧
    (∀ k, n ≤ 16384 * k → needed_info_frames n ≤ k) ∧
    needed_info_frames n ≤ needed_info_frames m ∧
    needed_info_frames n * 4 * FRAME_SIZE ≥ n := by
  have h1 := needed_info_frames_eq n hn
  have h2 := needed_info_frames_eq m hm
  have e1 : needed_info_frames n = (n + 16383) / 16384 := by
    rw [h1]; split <;> omega
  have e2 : needed_info_frames m = (m + 16383) / 16384 := by
    rw [h2]; split <;> omega
  refine ⟨by unfold FRAME_SIZE; exact e1, e1, ?_, ?_, ?_⟩
  · intro k hk; rw [e1]; omega
  · rw [e1, e2]; omega
  · unfold FRAME_SIZE; rw [e1]; omega

theorem needed_info_frames_ceil_witness :
    (7168 : Nat) < 4294967296 ∧ (20000 : Nat) < 4294967296 ∧ (7168 : Nat) ≤ 20000 ∧
    needed_info_frames 7168 = (7168 + (4 * FRAME_SIZE - 1)) / (4 * FRAME_SIZE) ∧
    needed_info_frames 7168 = (7168 + 16383) / 16384 ∧
    (∀ k, 7168 ≤ 16384 * k → needed_info_frames 7168 ≤ k) ∧
    needed_info_frames 7168 ≤ needed_info_frames 20000 ∧
    needed_info_frames 7168 * 4 * FRAME_SIZE ≥ 7168 :=
  ⟨by decide, by decide, by decide,
    needed_info_frames_ceil 7168 20000 (by decide) (by decide) (by decide)⟩

end ContFramePool

namespace ContFramePool

/-- C25 (the code at the failing input): the allocator `tailPool` manages the four frames
8..11; the slots 4..11 behind its bitmap read `ALLOCATED` (bytes `0x55`).  `get_frames 4`
returns frame 8, a run that reaches the last managed frame, and `release_frame 8` then
walks on to relative index 11: the slots 4..11, all of relative index `≥ num_frames`, are
rewritten to `FREE`.  The bound of the loop is the absolute `base_frame_num + num_frames`,
compared with the relative index. -/
theorem release_frame_walks_past_range :
    tailPool.num_frames = 4 ∧ tailPool.base_frame_num = 8 ∧
    (get_frames tailPool 4).1 = 8 ∧
    (∀ j, 4 ≤ j → j < 12 → (get_frames tailPool 4).2.frameState j = ALLOCATED) ∧
    (∀ j, 4 ≤ j → j < 12 →
      (release_frame (get_frames tailPool 4).2 8).frameState j = FREE) ∧
    (get_frames tailPool 4).2.managementHead 1 = 85 ∧
    (release_frame (get_frames tailPool 4).2 8).managementHead 1 = 0 ∧
    release_frames [(get_frames tailPool 4).2] 8 = [release_frame (get_frames tailPool 4).2 8] := by
  refine ⟨rfl, rfl, by decide, by decide, by decide, by decide, by decide, rfl⟩

theorem runInvariant_marked (p : ContFramePool) (s n : Nat) (h : p.runInvariant) :
    (marked p s n).runInvariant := by
  intro i hi ha
  rw [frameState_marked] at ha
  by_cases hin : s ≤ i ∧ i < s + n
  · rw [if_pos hin] at ha
    by_cases his : i = s
    · rw [if_pos his] at ha
      exact absurd ha (by decide)
    · refine ⟨by omega, ?_⟩
      rw [frameState_marked, if_pos (by omega)]
      by_cases h1 : i - 1 = s
      · rw [if_pos h1]; exact Or.inl rfl
      · rw [if_neg h1]; exact Or.inr rfl
  · rw [if_neg hin] at ha
    obtain ⟨h0, hprev⟩ := h i hi ha
    refine ⟨h0, ?_⟩
    rw [frameState_marked]
    by_cases hin' : s ≤ i - 1 ∧ i - 1 < s + n
    · rw [if_pos hin']
      by_cases h1 : i - 1 = s
      · rw [if_pos h1]; exact Or.inl rfl
      · rw [if_neg h1]; exact Or.inr rfl
    · rw [if_neg hin']; exact hprev

theorem mark_inaccessible_false_eq (p : ContFramePool) (a m : Nat) (hwf : p.wf)
    (ham : a + m ≤ p.num_frames) :
    mark_inaccessible p (p.base_frame_num + a) m false = marked p a m := by
  unfold wf at hwf
  have e2 : sub32 (p.base_frame_num + a) p.base_frame_num = a := by
    rw [Nat.add_comm]; exact sub32_add_left _ _ (by omega)
  have e3 : u32 (a + m) = a + m := u32_of_lt _ (by omega)
  simp only [mark_inaccessible, marked, e2, e3, Nat.add_sub_cancel_left, Bool.false_eq_true,
    if_false]

theorem runInvariant_mark_off (p : ContFramePool) (a m : Nat) (hwf : p.wf)
    (ham : a + m ≤ p.num_frames) (h : p.runInvariant)
    (hnext : a + m < p.num_frames → p.frameState (a + m) ≠ ALLOCATED) :
    (mark_inaccessible p (p.base_frame_num + a) m true).runInvariant := by
  intro i hi ha
  have hi' : i < p.num_frames := hi
  rw [frameState_mark_off p a m _ hwf ham] at ha
  by_cases hin : a ≤ i ∧ i < a + m
  · rw [if_pos hin] at ha
    exact absurd ha (by decide)
  · rw [if_neg hin] at ha
    obtain ⟨h0, hprev⟩ := h i hi' ha
    refine ⟨h0, ?_⟩
    rw [frameState_mark_off p a m _ hwf ham]
    by_cases hin' : a ≤ i - 1 ∧ i - 1 < a + m
    · have hia : i = a + m := by omega
      rw [hia] at ha
      exact absurd ha (hnext (by omega))
    · rw [if_neg hin']; exact hprev

theorem runInvariant_release_frame (p : ContFramePool) (i : Nat) (hwf : p.wf)
    (hi : i < p.num_frames) (h : p.runInvariant) :
    (release_frame p (p.base_frame_num + i)).runInvariant := by
  by_cases hh : p.frameState i = HEAD_OF_SEQUENCE
  · obtain ⟨m, hm1, hm, _, hstop, hb, hn, hread⟩ := release_frame_head p i hwf hi hh
    intro k hk ha
    rw [hn] at hk
    rw [hread] at ha
    by_cases hin : i ≤ k ∧ k < i + m
    · rw [if_pos hin] at ha
      exact absurd ha (by decide)
    · rw [if_neg hin] at ha
      obtain ⟨h0, hprev⟩ := h k hk ha
      refine ⟨h0, ?_⟩
      rw [hread]
      by_cases hin' : i ≤ k - 1 ∧ k - 1 < i + m
      · have hkm : k = i + m := by omega
        rcases hstop with hs | hs
        · omega
        · rw [hkm] at ha
          exact absurd ha hs
      · rw [if_neg hin']; exact hprev
  · rw [release_frame_not_head p i hwf hi hh]; exact h

end ContFramePool

namespace ContFramePool

theorem runInvariant_init (base count info ninfo : Nat) (storage : Nat → Nat)
    (hwf : base + count < 4294967296) (h4 : count % 4 = 0) :
    (init base count info ninfo storage).runInvariant := by
  have hzero : runInvariant ⟨base, count, zeroLoop (count >>> 2) 0 storage⟩ := by
    intro i hi ha
    have hi' : i < count := hi
    have : readState (zeroLoop (count >>> 2) 0 storage) i = FREE := by
      apply readState_zeroLoop
      rw [Nat.shiftRight_eq_div_pow]
      norm_num; omega
    have ha' : readState (zeroLoop (count >>> 2) 0 storage) i = ALLOCATED := ha
    rw [this] at ha'
    exact absurd ha' (by decide)
  by_cases hinfo : info = 0
  · rw [hinfo, init_self_hosted base count ninfo storage hwf]
    exact runInvariant_marked _ _ _ hzero
  · have : init base count info ninfo storage = ⟨base, count, zeroLoop (count >>> 2) 0 storage⟩ := by
      simp only [init, if_neg hinfo]
    rw [this]; exact hzero

theorem init_range (base count info ninfo : Nat) (storage : Nat → Nat) :
    (init base count info ninfo storage).base_frame_num = base ∧
    (init base count info ninfo storage).num_frames = count := by
  unfold init
  simp only
  split <;> exact ⟨rfl, rfl⟩

/-- What one guarded call keeps: the range of the allocator and the run invariant. -/
theorem step_keeps_runInvariant (p q : ContFramePool) (hwf : p.wf) (h : p.runInvariant)
    (hstep : Step True p q) :
    q.base_frame_num = p.base_frame_num ∧ q.num_frames = p.num_frames ∧ q.runInvariant := by
  cases hstep with
  | get_frames n =>
    rcases Nat.eq_zero_or_pos n with h0 | hn
    · rw [h0, get_frames_zero]; exact ⟨rfl, rfl, h⟩
    · by_cases hrun : p.hasFreeRun n
      · obtain ⟨s, _, _, _, hget⟩ := get_frames_success p n hwf hn hrun
        rw [hget]
        exact ⟨rfl, rfl, runInvariant_marked p s n h⟩
      · rw [get_frames_fail p n hn hrun]; exact ⟨rfl, rfl, h⟩
  | mark_inaccessible a m offLimits hrange hguard =>
    cases offLimits with
    | false =>
      rw [mark_inaccessible_false_eq p a m hwf hrange]
      exact ⟨rfl, rfl, runInvariant_marked p a m h⟩
    | true =>
      exact ⟨rfl, rfl, runInvariant_mark_off p a m hwf hrange h (hguard trivial rfl)⟩
  | release_frames _ x hcall =>
    unfold release_frames at hcall
    by_cases htest : x ≥ p.base_frame_num ∧ x < u32 (p.base_frame_num + p.num_frames)
    · rw [if_pos htest] at hcall
      have hq : q = release_frame p x := by
        have := List.cons.inj hcall
        exact this.1.symm
      have hx := (inRange_iff_test p x hwf).1 htest
      unfold inRange at hx
      have hxi : x = p.base_frame_num + (x - p.base_frame_num) := by omega
      have hi : x - p.base_frame_num < p.num_frames := by omega
      rw [hq, hxi]
      refine ⟨?_, ?_, runInvariant_release_frame p _ hwf hi h⟩
      · by_cases hh : p.frameState (x - p.base_frame_num) = HEAD_OF_SEQUENCE
        · obtain ⟨m, _, _, _, _, hb, _, _⟩ := release_frame_head p _ hwf hi hh
          exact hb
        · rw [release_frame_not_head p _ hwf hi hh]
      · by_cases hh : p.frameState (x - p.base_frame_num) = HEAD_OF_SEQUENCE
        · obtain ⟨m, _, _, _, _, _, hn, _⟩ := release_frame_head p _ hwf hi hh
          exact hn
        · rw [release_frame_not_head p _ hwf hi hh]
    · rw [if_neg htest] at hcall
      have hq : q = p := by
        have := List.cons.inj hcall
        exact this.1.symm
      rw [hq]; exact ⟨rfl, rfl, h⟩

/-- C23 (as stated, refuted): from the allocator over frames 512..519 just constructed,
`get_frames 3` followed by `mark_inaccessible` with the off-limits flag on frame 512 alone
reaches a state in which frame 0 is `OFF_LIMITS` and frame 1, directly after it, is
`ALLOCATED`: the run invariant does not hold in every reachable state. -/
theorem off_limits_mark_splits_run :
    Reachable False (init 512 8 600 1 (fun _ => 255))
      (mark_inaccessible (get_frames (init 512 8 600 1 (fun _ => 255)) 3).2 (512 + 0) 1 true) ∧
    (mark_inaccessible (get_frames (init 512 8 600 1 (fun _ => 255)) 3).2
      (512 + 0) 1 true).frameState 0 = OFF_LIMITS ∧
    (mark_inaccessible (get_frames (init 512 8 600 1 (fun _ => 255)) 3).2
      (512 + 0) 1 true).frameState 1 = ALLOCATED ∧
    ¬ (∀ q, Reachable False (init 512 8 600 1 (fun _ => 255)) q → q.runInvariant) := by
  have hreach : Reachable False (init 512 8 600 1 (fun _ => 255))
      (mark_inaccessible (get_frames (init 512 8 600 1 (fun _ => 255)) 3).2
        (512 + 0) 1 true) :=
    Reachable.step _ _ (Reachable.step _ _ Reachable.start (Step.get_frames _ 3))
      (Step.mark_inaccessible (get_frames (init 512 8 600 1 (fun _ => 255)) 3).2 0 1 true
        (by decide) (fun hf => False.elim hf))
  refine ⟨hreach, by decide, by decide, fun hall => ?_⟩
  have := (hall _ hreach 1 (by decide) (by decide)).2
  revert this
  decide

/-- C23 (amended): take an allocator constructed over a frame count that is a multiple of 4,
with `base + count < 2^32`, whatever the storage held before.  In every state reached from
it by any sequence of `get_frames` calls, `release_frames` calls, `mark_inaccessible` calls
without the off-limits flag on ranges inside the managed range, and `mark_inaccessible`
calls with the off-limits flag on ranges inside the managed range that are not directly
followed by an `ALLOCATED` frame, the range of the allocator is the same and the run
invariant holds: no `ALLOCATED` frame is the first frame of the range or directly follows a
`FREE` or `OFF_LIMITS` frame. -/
theorem runInvariant_reachable (base count info ninfo : Nat) (storage : Nat → Nat)
    (q : ContFramePool) (hwf : base + count < 4294967296) (h4 : count % 4 = 0)
    (hq : Reachable True (init base count info ninfo storage) q) :
    q.base_frame_num = base ∧ q.num_frames = count ∧ q.runInvariant ∧
    (∀ i, i < q.num_frames → q.frameState i = ALLOCATED →
      0 < i ∧ q.frameState (i - 1) ≠ FREE ∧ q.frameState (i - 1) ≠ OFF_LIMITS) := by
  have hmain : q.base_frame_num = base ∧ q.num_frames = count ∧ q.runInvariant := by
    induction hq with
    | start =>
      obtain ⟨hb, hn⟩ := init_range base count info ninfo storage
      exact ⟨hb, hn, runInvariant_init base count info ninfo storage hwf h4⟩
    | step p q _ hstep ih =>
      obtain ⟨hb, hn, hinv⟩ := ih
      have hwfp : p.wf := by unfold wf; rw [hb, hn]; exact hwf
      obtain ⟨hb', hn', hinv'⟩ := step_keeps_runInvariant p q hwfp hinv hstep
      exact ⟨by rw [hb', hb], by rw [hn', hn], hinv'⟩
  refine ⟨hmain.1, hmain.2.1, hmain.2.2, fun i hi ha => ?_⟩
  obtain ⟨h0, hprev⟩ := hmain.2.2 i hi ha
  refine ⟨h0, ?_, ?_⟩
  · rcases hprev with h | h <;> rw [h] <;> decide
  · rcases hprev with h | h <;> rw [h] <;> decide

theorem runInvariant_reachable_witness :
    512 + 8 < 4294967296 ∧ 8 % 4 = 0 ∧
    Reachable True (init 512 8 600 1 (fun _ => 255)) samplePool ∧
    samplePool.base_frame_num = 512 ∧ samplePool.num_frames = 8 ∧ samplePool.runInvariant ∧
    (∀ i, i < samplePool.num_frames → samplePool.frameState i = ALLOCATED →
      0 < i ∧ samplePool.frameState (i - 1) ≠ FREE ∧
        samplePool.frameState (i - 1) ≠ OFF_LIMITS) :=
  ⟨by decide, by decide, Reachable.step _ _ Reachable.start (Step.get_frames _ 2),
    runInvariant_reachable 512 8 600 1 (fun _ => 255) samplePool (by decide) (by decide)
      (Reachable.step _ _ Reachable.start (Step.get_frames _ 2))⟩

end ContFramePool

namespace VMPool
open PageTable (PAGE_SIZE)

/-- C24 (the code at the failing input): in the freshly constructed pool over pages
4096..8191 (`base_address = size = 16777216`, metadata page 4096), `allocate 4294963200`
returns the address of page 4097 and records the descriptor `(4097, 4294963200)`; the next
call `allocate 16777216` returns the address 4096 of page 1 and records the descriptor
`(1, 16777216)`.  Page 1 is not greater than the pool's first page 4096, and the range
returned, pages 1..4096, contains the metadata page: `first_page + size` of the first
descriptor wraps around to 1 in 32 bits. -/
theorem allocate_returns_metadata_page :
    wrapPool.base_address / PAGE_SIZE = 4096 ∧
    (∀ k, allocate (2 + k) wrapPool 4294963200 = some (4097 * 4096, wrapPoolOne)) ∧
    wrapPoolOne.block 0 = { first_page := 4097, size := 4294963200 } ∧
    (∀ k, allocate (3 + k) wrapPoolOne 16777216 = some (4096, wrapPoolTwo)) ∧
    wrapPoolTwo.allocated_list_size = 2 ∧
    wrapPoolTwo.block 1 = { first_page := 1, size := 16777216 } ∧
    ¬ (wrapPool.base_address / PAGE_SIZE < 4096 / PAGE_SIZE) ∧
    (4096 ≤ wrapPool.base_address ∧ wrapPool.base_address < 4096 + 16777216) ∧
    (4294963200 % PAGE_SIZE = 0 ∧ 16777216 % PAGE_SIZE = 0) := by
  refine ⟨by decide, fun k => ?_, by decide, fun k => ?_, by decide, by decide, by decide,
    by decide, by decide⟩
  · rw [allocate_fuel _ _ 2 (by decide) k]; rfl
  · rw [allocate_fuel _ _ 3 (by decide) k]; rfl

end VMPool

namespace PageTable

theorem faultEntryAddr_eq (a : Nat) : faultEntryAddr a = leafEntryAddr (pageOf a) := by
  have hidx : (pageOf a >>> 10) &&& 0x3ff = pageOf a >>> 10 := by
    have := pageOf_lt a
    rw [and_1023, Nat.shiftRight_eq_div_pow]
    apply Nat.mod_eq_of_lt
    norm_num; omega
  unfold leafEntryAddr
  rw [hidx]
  rfl

theorem pageOf_eq (a p : Nat) (ha : a < 4294967296) (hp : a / 4096 = p) : pageOf a = p := by
  unfold pageOf
  rw [and_fffff, Nat.shiftRight_eq_div_pow]
  norm_num; omega

/-- C27: for a page number `p < 2^20`, the address at which `free_page p` reads and rewrites
the leaf entry is `leafEntryAddr p`; for every 32-bit fault address `a` lying in page `p`
the address `page_addr` computed by `handle_fault` is the same, and it is the address
`handle_fault` writes when the address is valid and the covering table present.  That
address is `0xFFC00000 + 4 * p`, below `2^32`; its top-level index (bits 31..22) is the
self-map index `0x3FF`; and distinct page numbers below `2^20` give distinct addresses. -/
theorem leaf_entry_address (p : Nat) (hp : p < 1048576) :
    (∀ st, (free_page st p).mem =
      storeWord st.mem (leafEntryAddr p) (st.mem (leafEntryAddr p) &&& 4294967294)) ∧
    (∀ a, a < 4294967296 → a / 4096 = p → faultEntryAddr a = leafEntryAddr p) ∧
    (∀ st a, a < 4294967296 → a / 4096 = p → validAddress st a →
      st.mem (directorySlotAddr (pageOf a >>> 10)) &&& 1 ≠ 0 →
      ∃ st', handle_fault st a = Outcome.returned st' ∧
        st'.mem = storeWord st.mem (leafEntryAddr p)
          (u32 ((callGetFrames st.pools st.process_mem_pool 1).1 * PAGE_SIZE) ||| 3)) ∧
    leafEntryAddr p = 4290772992 + 4 * p ∧
    leafEntryAddr p < 4294967296 ∧
    (leafEntryAddr p >>> 22) &&& 0x3ff = 0x3ff ∧
    (∀ q, q < 1048576 → q ≠ p → leafEntryAddr q ≠ leafEntryAddr p) := by
  have haddr := leafEntryAddr_eq p hp
  refine ⟨fun st => rfl, ?_, ?_, haddr, by omega, ?_, ?_⟩
  · intro a ha hap
    rw [faultEntryAddr_eq, pageOf_eq a p ha hap]
  · intro st a ha hap hvalid hpresent
    refine ⟨_, handle_fault_present st a hvalid hpresent, ?_⟩
    rw [pageOf_eq a p ha hap]
    rfl
  · rw [haddr, and_1023, Nat.shiftRight_eq_div_pow]
    norm_num; omega
  · intro q hq hne
    rw [leafEntryAddr_eq q hq, haddr]
    omega

theorem leaf_entry_address_witness :
    (16 : Nat) < 1048576 ∧
    (∀ st, (free_page st 16).mem =
      storeWord st.mem (leafEntryAddr 16) (st.mem (leafEntryAddr 16) &&& 4294967294)) ∧
    (∀ a, a < 4294967296 → a / 4096 = 16 → faultEntryAddr a = leafEntryAddr 16) ∧
    (∀ st a, a < 4294967296 → a / 4096 = 16 → validAddress st a →
      st.mem (directorySlotAddr (pageOf a >>> 10)) &&& 1 ≠ 0 →
      ∃ st', handle_fault st a = Outcome.returned st' ∧
        st'.mem = storeWord st.mem (leafEntryAddr 16)
          (u32 ((callGetFrames st.pools st.process_mem_pool 1).1 * PAGE_SIZE) ||| 3)) ∧
    leafEntryAddr 16 = 4290772992 + 4 * 16 ∧
    leafEntryAddr 16 < 4294967296 ∧
    (leafEntryAddr 16 >>> 22) &&& 0x3ff = 0x3ff ∧
    (∀ q, q < 1048576 → q ≠ 16 → leafEntryAddr q ≠ leafEntryAddr 16) :=
  ⟨by decide, leaf_entry_address 16 (by decide)⟩

end PageTable

namespace PageTable

theorem clearTable_other (pt : Nat) : ∀ count i mem a,
    (∀ j, i ≤ j → j < i + count → a ≠ (0x3ff <<< 22) ||| (pt <<< 12) ||| (j <<< 2)) →
    clearTable pt count i mem a = mem a := by
  intro count
  induction count with
  | zero => intro i mem a _; rfl
  | succ count ih =>
    intro i mem a h
    rw [clearTable, ih _ _ _ (fun j h1 h2 => h j (by omega) (by omega))]
    unfold storeWord
    rw [if_neg (h i (le_refl _) (by omega))]

theorem clearTable_at (pt : Nat) (hpt : pt < 1024) : ∀ count i mem j, i + count ≤ 1024 →
    i ≤ j → j < i + count →
    clearTable pt count i mem ((0x3ff <<< 22) ||| (pt <<< 12) ||| (j <<< 2)) = 2 := by
  intro count
  induction count with
  | zero => intro i mem j _ h1 h2; omega
  | succ count ih =>
    intro i mem j hb h1 h2
    rw [clearTable]
    by_cases hji : j = i
    · subst hji
      rw [clearTable_other]
      · unfold storeWord
        rw [if_pos rfl]
      · intro k hk1 hk2
        rw [entry_addr_eq pt j hpt (by omega), entry_addr_eq pt k hpt (by omega)]
        omega
    · exact ih _ _ _ (by omega) (by omega) (by omega)

set_option maxRecDepth 100000 in
/-- What `handle_fault` does for a valid address whose directory slot lacks the present
bit. -/
theorem handle_fault_absent (st : State) (a : Nat) (hvalid : validAddress st a)
    (habsent : st.mem (directorySlotAddr (pageOf a >>> 10)) &&& 1 = 0) :
    handle_fault st a = Outcome.returned (st.update
      (storeWord
        (clearTable (pageOf a >>> 10) 1024 0
          (storeWord st.mem (directorySlotAddr (pageOf a >>> 10))
            (u32 ((callGetFrames st.pools st.process_mem_pool 1).1 * PAGE_SIZE) ||| 3)))
        (leafEntryAddr (pageOf a))
        (u32 ((callGetFrames (callGetFrames st.pools st.process_mem_pool 1).2
          st.process_mem_pool 1).1 * PAGE_SIZE) ||| 3))
      (callGetFrames (callGetFrames st.pools st.process_mem_pool 1).2
        st.process_mem_pool 1).2) := by
  have ht := (address_valid_iff st a).2 hvalid
  have hidx : (pageOf a >>> 10) &&& 0x3ff = pageOf a >>> 10 := by
    have := pageOf_lt a
    rw [and_1023, Nat.shiftRight_eq_div_pow]
    apply Nat.mod_eq_of_lt
    norm_num; omega
  unfold directorySlotAddr pageOf at habsent
  unfold handle_fault
  simp only [ht, Bool.true_eq_false, if_false, if_pos habsent]
  unfold leafEntryAddr State.update directorySlotAddr
  rw [hidx]
  rfl

end PageTable

namespace PageTable

set_option maxRecDepth 100000 in
/-- C26 (as stated, refuted): in the state that `free_page 1048575` leaves from
`absentState`, the self-map slot (directory slot 1023) reads `0x1002`, not present.  The
fault address `0xFFC00000` is valid (its top-level index is `0x3FF`), the directory slot
that covers it is that slot 1023, and the process pool has the `FREE` frames 0 and 1.
`handle_fault` returns after `get_frames 1` has yielded frame 1024 and then frame 1025; the
covering directory slot then reads the placeholder 2, not `1024 * 4096 | 3`: the loop that
fills the new table through the self-map addresses passes over the slot just written. -/
theorem handle_fault_clears_self_map_slot :
    validAddress (free_page absentState 1048575) 4290772992 ∧
    pageOf 4290772992 >>> 10 = 1023 ∧
    (free_page absentState 1048575).mem (directorySlotAddr 1023) = 4098 ∧
    (free_page absentState 1048575).mem (directorySlotAddr (pageOf 4290772992 >>> 10)) &&& 1
      = 0 ∧
    (free_page absentState 1048575).pools[(free_page absentState 1048575).process_mem_pool]?
      = some ContFramePool.otherPool ∧
    ContFramePool.otherPool.frameState 0 = FREE ∧ ContFramePool.otherPool.frameState 1 = FREE ∧
    (ContFramePool.get_frames ContFramePool.otherPool 1).1 = 1024 ∧
    (ContFramePool.get_frames (ContFramePool.get_frames ContFramePool.otherPool 1).2 1).1
      = 1025 ∧
    ∃ st', handle_fault (free_page absentState 1048575) 4290772992 = Outcome.returned st' ∧
      st'.mem (directorySlotAddr (pageOf 4290772992 >>> 10)) = 2 ∧
      st'.mem (directorySlotAddr (pageOf 4290772992 >>> 10)) ≠ 1024 * 4096 ||| 3 ∧
      st'.mem (leafEntryAddr (pageOf 4290772992)) = 1025 * 4096 ||| 3 := by
  have hvalid : validAddress (free_page absentState 1048575) 4290772992 := Or.inr (by decide)
  have habsent : (free_page absentState 1048575).mem
      (directorySlotAddr (pageOf 4290772992 >>> 10)) &&& 1 = 0 := by decide
  have hslot : (storeWord
      (clearTable (pageOf 4290772992 >>> 10) 1024 0
        (storeWord (free_page absentState 1048575).mem
          (directorySlotAddr (pageOf 4290772992 >>> 10))
          (u32 ((callGetFrames (free_page absentState 1048575).pools
            (free_page absentState 1048575).process_mem_pool 1).1 * PAGE_SIZE) ||| 3)))
      (leafEntryAddr (pageOf 4290772992))
      (u32 ((callGetFrames (callGetFrames (free_page absentState 1048575).pools
        (free_page absentState 1048575).process_mem_pool 1).2
        (free_page absentState 1048575).process_mem_pool 1).1 * PAGE_SIZE) ||| 3))
      (directorySlotAddr (pageOf 4290772992 >>> 10)) = 2 := by
    rw [storeWord_other _ _ _ _ (by decide)]
    exact clearTable_at 1023 (by decide) 1024 0 _ 1023 (le_refl _) (Nat.zero_le _) (by decide)
  have hmem : ∀ (st : State) (m : Nat → Nat) (pools : List ContFramePool),
      (st.update m pools).mem = m := fun _ _ _ => rfl
  refine ⟨hvalid, by decide, by decide, habsent, rfl, by decide, by decide, by decide,
    by decide, _, handle_fault_absent _ _ hvalid habsent, ?_, ?_, ?_⟩
  · rw [hmem]
    exact hslot
  · rw [hmem, hslot]
    decide
  · rw [hmem, storeWord_same]
    decide

/-- C26 (amended): for a valid fault address whose top-level index is not the self-map
index `0x3FF` and whose directory slot lacks the present bit, and a process pool inside the
first `2^20` frames with two distinct `FREE` frames, `handle_fault` returns after two
successive `get_frames 1` on the process pool, which yield two distinct frames `t` and `f`,
both `FREE` before.  Afterwards the covering directory slot reads `t * 4096 | 3`, the leaf
entry of the faulting page reads `f * 4096 | 3`, the leaf entry of each of the other 1023
pages covered by the same table reads the placeholder 2, and every word of memory that is
neither the directory slot nor an entry of that table is unchanged. -/
theorem handle_fault_installs_table (st : State) (a : Nat) (pool : ContFramePool) (i j : Nat)
    (hvalid : validAddress st a)
    (habsent : st.mem (directorySlotAddr (pageOf a >>> 10)) &&& 1 = 0)
    (htop : (a >>> 22) &&& 0x3ff ≠ 0x3ff)
    (hpool : st.pools[st.process_mem_pool]? = some pool)
    (hrange : pool.base_frame_num + pool.num_frames ≤ 1048576)
    (hi : i < pool.num_frames) (hj : j < pool.num_frames) (hij : i ≠ j)
    (hfi : pool.frameState i = FREE) (hfj : pool.frameState j = FREE) :
    ∃ s1 s2 st', s1 < pool.num_frames ∧ s2 < pool.num_frames ∧ s1 ≠ s2 ∧
      pool.frameState s1 = FREE ∧ pool.frameState s2 = FREE ∧
      ContFramePool.get_frames pool 1 =
        (pool.base_frame_num + s1, ContFramePool.marked pool s1 1) ∧
      ContFramePool.get_frames (ContFramePool.marked pool s1 1) 1 =
        (pool.base_frame_num + s2,
          ContFramePool.marked (ContFramePool.marked pool s1 1) s2 1) ∧
      handle_fault st a = Outcome.returned st' ∧
      st'.pools = st.pools.set st.process_mem_pool
        (ContFramePool.marked (ContFramePool.marked pool s1 1) s2 1) ∧
      st'.mem (directorySlotAddr (pageOf a >>> 10)) = (pool.base_frame_num + s1) * 4096 ||| 3 ∧
      st'.mem (leafEntryAddr (pageOf a)) = (pool.base_frame_num + s2) * 4096 ||| 3 ∧
      (∀ q, q < 1048576 → q >>> 10 = pageOf a >>> 10 → q ≠ pageOf a →
        st'.mem (leafEntryAddr q) = 2) ∧
      (∀ addr, addr ≠ directorySlotAddr (pageOf a >>> 10) →
        (∀ q, q < 1048576 → q >>> 10 = pageOf a >>> 10 → addr ≠ leafEntryAddr q) →
        st'.mem addr = st.mem addr) := by
  have hwf : pool.wf := by unfold ContFramePool.wf; omega
  have hrun1 : pool.hasFreeRun 1 :=
    ⟨i, by omega, fun k hk => by rw [show i + k = i by omega]; exact hfi⟩
  obtain ⟨s1, hs1, hfr1, _, hget1⟩ :=
    ContFramePool.get_frames_success pool 1 hwf (le_refl _) hrun1
  have hfree1 : pool.frameState s1 = FREE := by simpa using hfr1 0 (by omega)
  have hwf1 : (ContFramePool.marked pool s1 1).wf := hwf
  have hnum1 : (ContFramePool.marked pool s1 1).num_frames = pool.num_frames := rfl
  have hbase1 : (ContFramePool.marked pool s1 1).base_frame_num = pool.base_frame_num := rfl
  have hrun2 : (ContFramePool.marked pool s1 1).hasFreeRun 1 := by
    by_cases hs : i = s1
    · refine ⟨j, by rw [hnum1]; omega, fun k hk => ?_⟩
      rw [show j + k = j by omega, ContFramePool.frameState_marked, if_neg (by omega)]
      exact hfj
    · refine ⟨i, by rw [hnum1]; omega, fun k hk => ?_⟩
      rw [show i + k = i by omega, ContFramePool.frameState_marked, if_neg (by omega)]
      exact hfi
  obtain ⟨s2, hs2, hfr2, _, hget2⟩ :=
    ContFramePool.get_frames_success (ContFramePool.marked pool s1 1) 1 hwf1 (le_refl _) hrun2
  rw [hnum1] at hs2
  rw [hbase1] at hget2
  have hfree2 : (ContFramePool.marked pool s1 1).frameState s2 = FREE := by
    simpa using hfr2 0 (by omega)
  rw [ContFramePool.frameState_marked] at hfree2
  have hne : s1 ≠ s2 := by
    intro h
    rw [if_pos (by omega), if_pos h.symm] at hfree2
    exact absurd hfree2 (by decide)
  rw [if_neg (by omega)] at hfree2
  have hcall1 := callGetFrames_some st.pools st.process_mem_pool 1 pool hpool
  rw [hget1] at hcall1
  simp only at hcall1
  have hlen : st.process_mem_pool < st.pools.length := by
    rcases Nat.lt_or_ge st.process_mem_pool st.pools.length with h | h
    · exact h
    · rw [List.getElem?_eq_none h] at hpool
      exact absurd hpool (by simp)
  have hpool1 : (st.pools.set st.process_mem_pool (ContFramePool.marked pool s1 1))[
      st.process_mem_pool]? = some (ContFramePool.marked pool s1 1) := by
    rw [List.getElem?_set_self hlen]
  have hcall2 := callGetFrames_some _ st.process_mem_pool 1 _ hpool1
  rw [hget2, List.set_set] at hcall2
  simp only at hcall2
  have hfault := handle_fault_absent st a hvalid habsent
  rw [hcall1] at hfault
  simp only at hfault
  rw [hcall2] at hfault
  simp only at hfault
  have hu1 : u32 ((pool.base_frame_num + s1) * PAGE_SIZE) = (pool.base_frame_num + s1) * 4096 := by
    unfold PAGE_SIZE
    apply u32_of_lt
    omega
  have hu2 : u32 ((pool.base_frame_num + s2) * PAGE_SIZE) = (pool.base_frame_num + s2) * 4096 := by
    unfold PAGE_SIZE
    apply u32_of_lt
    omega
  rw [hu1, hu2] at hfault
  have hpage := pageOf_lt a
  have hpt : pageOf a >>> 10 < 1024 := by
    rw [Nat.shiftRight_eq_div_pow]
    norm_num; omega
  have hptne : pageOf a >>> 10 ≠ 1023 := by
    rw [← top_index_eq]
    exact htop
  have hdir := directorySlotAddr_eq (pageOf a >>> 10) hpt
  have hleaf := leafEntryAddr_eq (pageOf a) hpage
  have hdecomp : ∀ q, q < 1048576 →
      leafEntryAddr q = (0x3ff <<< 22) ||| ((q >>> 10) <<< 12) ||| ((q &&& 0x3ff) <<< 2) := by
    intro q hq
    have hidx : (q >>> 10) &&& 0x3ff = q >>> 10 := by
      rw [and_1023, Nat.shiftRight_eq_div_pow]
      apply Nat.mod_eq_of_lt
      norm_num; omega
    unfold leafEntryAddr
    rw [hidx]
  have hsub : ∀ q, q &&& 0x3ff < 1024 := by
    intro q
    rw [and_1023]
    exact Nat.mod_lt _ (by norm_num)
  refine ⟨s1, s2, _, by omega, by omega, hne, hfree1, hfree2, hget1, hget2, hfault, rfl,
    ?_, ?_, ?_, ?_⟩
  · show storeWord _ _ _ _ = _
    have hne1 : directorySlotAddr (pageOf a >>> 10) ≠ leafEntryAddr (pageOf a) := by
      rw [hdir, hleaf]
      rw [Nat.shiftRight_eq_div_pow] at hptne ⊢
      norm_num at hptne ⊢
      omega
    rw [storeWord_other _ _ _ _ hne1]
    rw [clearTable_other, storeWord_same]
    intro k hk1 hk2
    rw [entry_addr_eq _ k hpt (by omega), hdir]
    rw [Nat.shiftRight_eq_div_pow] at hptne ⊢
    norm_num at hptne ⊢
    omega
  · show storeWord _ _ _ _ = _
    rw [storeWord_same]
  · intro q hq hqt hqne
    show storeWord _ _ _ _ = _
    rw [storeWord_other _ _ _ _ (by rw [leafEntryAddr_eq q hq, hleaf]; omega)]
    rw [hdecomp q hq, hqt]
    exact clearTable_at _ hpt 1024 0 _ _ (le_refl _) (Nat.zero_le _) (by have := hsub q; omega)
  · intro addr hd hq
    show storeWord _ _ _ _ = _
    have hself_page := hq (pageOf a) hpage rfl
    rw [storeWord_other _ _ _ _ hself_page, clearTable_other, storeWord_other _ _ _ _ hd]
    intro k hk1 hk2 heq
    have hk : k < 1024 := by omega
    have hqk : (pageOf a >>> 10) * 1024 + k < 1048576 := by omega
    have hsh : ((pageOf a >>> 10) * 1024 + k) >>> 10 = pageOf a >>> 10 := by
      rw [Nat.shiftRight_eq_div_pow ((pageOf a >>> 10) * 1024 + k)]
      norm_num; omega
    apply hq _ hqk hsh
    rw [heq, leafEntryAddr_eq _ hqk, entry_addr_eq _ k hpt hk]
    omega

theorem handle_fault_installs_table_witness :
    validAddress absentState 65536 ∧
    absentState.mem (directorySlotAddr (pageOf 65536 >>> 10)) &&& 1 = 0 ∧
    (65536 >>> 22) &&& 0x3ff ≠ 0x3ff ∧
    absentState.pools[absentState.process_mem_pool]? = some ContFramePool.otherPool ∧
    ContFramePool.otherPool.base_frame_num + ContFramePool.otherPool.num_frames ≤ 1048576 ∧
    ContFramePool.otherPool.frameState 0 = FREE ∧ ContFramePool.otherPool.frameState 1 = FREE ∧
    ∃ s1 s2 st', s1 < ContFramePool.otherPool.num_frames ∧
      s2 < ContFramePool.otherPool.num_frames ∧ s1 ≠ s2 ∧
      ContFramePool.otherPool.frameState s1 = FREE ∧
      ContFramePool.otherPool.frameState s2 = FREE ∧
      ContFramePool.get_frames ContFramePool.otherPool 1 =
        (ContFramePool.otherPool.base_frame_num + s1,
          ContFramePool.marked ContFramePool.otherPool s1 1) ∧
      ContFramePool.get_frames (ContFramePool.marked ContFramePool.otherPool s1 1) 1 =
        (ContFramePool.otherPool.base_frame_num + s2,
          ContFramePool.marked (ContFramePool.marked ContFramePool.otherPool s1 1) s2 1) ∧
      handle_fault absentState 65536 = Outcome.returned st' ∧
      st'.pools = absentState.pools.set absentState.process_mem_pool
        (ContFramePool.marked (ContFramePool.marked ContFramePool.otherPool s1 1) s2 1) ∧
      st'.mem (directorySlotAddr (pageOf 65536 >>> 10)) =
        (ContFramePool.otherPool.base_frame_num + s1) * 4096 ||| 3 ∧
      st'.mem (leafEntryAddr (pageOf 65536)) =
        (ContFramePool.otherPool.base_frame_num + s2) * 4096 ||| 3 ∧
      (∀ q, q < 1048576 → q >>> 10 = pageOf 65536 >>> 10 → q ≠ pageOf 65536 →
        st'.mem (leafEntryAddr q) = 2) ∧
      (∀ addr, addr ≠ directorySlotAddr (pageOf 65536 >>> 10) →
        (∀ q, q < 1048576 → q >>> 10 = pageOf 65536 >>> 10 → addr ≠ leafEntryAddr q) →
        st'.mem addr = absentState.mem addr) :=
  ⟨Or.inl ⟨VMPool.midPool, List.Mem.head _, by decide⟩, by decide, by decide, rfl, by decide,
    by decide, by decide,
    handle_fault_installs_table absentState 65536 ContFramePool.otherPool 0 1
      (Or.inl ⟨VMPool.midPool, List.Mem.head _, by decide⟩) (by decide) (by decide) rfl
      (by decide) (by decide) (by decide) (by decide) (by decide) (by decide)⟩

end PageTable
